import Mathlib

/-!
# Verification of the openclaw exec-approvals analysis

Shallow embedding of `src/infra/exec-approvals-analysis.ts` and
`src/infra/exec-wrapper-resolution.ts` / `exec-system-run.ts` (the unnamed
source parts), over `List Char` / `String`.  Filesystem-dependent executable
resolution (`resolveExecutablePath`, which stats the disk) is abstracted as an
oracle `fsResolve : String → Option String` mapping a raw executable token to
its resolved absolute path; everything else is translated directly from the
TypeScript source.  Scanning loops that consume a data-dependent number of
characters per step are written with an explicit fuel parameter (always called
with `length + 1`, which is shown sufficient), so that all definitions compute
by kernel reduction.
-/

set_option maxHeartbeats 1600000

/-! ## JS string primitives -/

/-- The ASCII part of the JS `\s` class (space, tab, newline, carriage return,
vertical tab, form feed), used by `trim()` and `/\s/` tests in the source. -/
def isSpaceJS (c : Char) : Bool :=
  c == ' ' || c == '\t' || c == '\n' || c == '\r' || c == '\x0b' || c == '\x0c'

/-- JS `String.prototype.trim` on a character list. -/
def trimChars (cs : List Char) : List Char :=
  ((cs.dropWhile isSpaceJS).reverse.dropWhile isSpaceJS).reverse

/-- JS `String.prototype.trim`. -/
def jsTrim (s : String) : String :=
  String.mk (trimChars s.data)

/-- JS `String.prototype.toLowerCase` (ASCII). -/
def lowerStr (s : String) : String :=
  String.mk (s.data.map Char.toLower)

/-- `pat.isPrefixOf s` on raw character lists (JS `String.prototype.startsWith`). -/
def startsWithL : List Char → List Char → Bool
  | [], _ => true
  | _ :: _, [] => false
  | p :: ps, c :: cs => p == c && startsWithL ps cs

/-- JS `s.startsWith(pat)`. -/
def startsWithS (s pat : String) : Bool :=
  startsWithL pat.data s.data

/-- Split at the first occurrence of a character (JS `indexOf` + two `slice`s):
`some (before, after)` when the character occurs, `none` otherwise. -/
def splitAtFirst (t : Char) : List Char → Option (List Char × List Char)
  | [] => none
  | c :: cs =>
    if c == t then some ([], cs)
    else
      match splitAtFirst t cs with
      | some (a, b) => some (c :: a, b)
      | none => none

/-- The part of a character list before the first `'='` (the whole list when
there is none); JS `lower.split("=", 2)[0]`. -/
def takeUntilEq (cs : List Char) : List Char :=
  match splitAtFirst '=' cs with
  | some (a, _) => a
  | none => cs

/-! ## Node `path.basename` model

`basenameLower` in the source compares `path.win32.basename` and
`path.posix.basename` of a token and keeps the shorter one.  Node's basename
is the last maximal run of non-separator characters (empty when there is
none), with `win32` additionally skipping a leading drive-letter prefix. -/

def lastRunAux (isSep : Char → Bool) : List Char → List Char → List Char → List Char
  | [], cur, last => if cur = [] then last else cur
  | c :: cs, cur, last =>
    if isSep c then lastRunAux isSep cs [] (if cur = [] then last else cur)
    else lastRunAux isSep cs (cur ++ [c]) last

/-- Node `path.posix.basename` (no extension argument). -/
def posixBasenameL (cs : List Char) : List Char :=
  lastRunAux (fun c => c == '/') cs [] []

def isAsciiLetter (c : Char) : Bool :=
  ('a' ≤ c && c ≤ 'z') || ('A' ≤ c && c ≤ 'Z')

/-- Node `path.win32.basename` (no extension argument). -/
def win32BasenameL (cs : List Char) : List Char :=
  let body :=
    match cs with
    | a :: b :: rest => if isAsciiLetter a && b == ':' then rest else cs
    | _ => cs
  lastRunAux (fun c => c == '/' || c == '\\') body [] []

/-- `basenameLower` from `exec-wrapper-resolution.ts`: the shorter of the two
platform basenames, trimmed and lowercased. -/
def basenameLower (token : String) : String :=
  let win := win32BasenameL token.data
  let posix := posixBasenameL token.data
  let base := if win.length < posix.length then win else posix
  String.mk ((trimChars base).map Char.toLower)

/-! ## Data model (`exec-approvals-analysis.ts`) -/

structure CommandResolution where
  rawExecutable : String
  resolvedPath : Option String
  executableName : String
deriving DecidableEq

structure ExecCommandSegment where
  raw : String
  argv : List String
  resolution : Option CommandResolution
deriving DecidableEq

structure ExecCommandAnalysis where
  ok : Bool
  reason : Option String
  segments : List ExecCommandSegment
  chains : Option (List (List ExecCommandSegment))
deriving DecidableEq

inductive ShellChainOperator where
  | andOp
  | orOp
  | semi
deriving DecidableEq

/-- The literal operator text (`"&&"`, `"||"`, `";"`). -/
def ShellChainOperator.render : ShellChainOperator → String
  | .andOp => "&&"
  | .orOp => "||"
  | .semi => ";"

structure ShellChainPart where
  part : List Char
  opToNext : Option ShellChainOperator
deriving DecidableEq

/-- `ExecArgvToken` tagged union. -/
inductive ExecArgvToken where
  | empty (raw : String)
  | terminator (raw : String)
  | stdin (raw : String)
  | positional (raw : String)
  | longOption (raw flag : String) (inlineValue : Option String)
  | shortCluster (raw cluster : String) (flags : List String)
deriving DecidableEq

/-- `parseExecArgvToken` from `exec-approvals-analysis.ts`. -/
def parseExecArgvToken (raw : String) : ExecArgvToken :=
  if raw = "" then .empty raw
  else if raw = "--" then .terminator raw
  else if raw = "-" then .stdin raw
  else if ¬ startsWithS raw "-" then .positional raw
  else if startsWithS raw "--" then
    match splitAtFirst '=' raw.data with
    | some (a, b) => .longOption raw (String.mk a) (some (String.mk b))
    | none => .longOption raw raw none
  else
    let cluster := raw.data.tail
    .shortCluster raw (String.mk cluster) (cluster.map (fun c => String.mk ['-', c]))

/-! ## env-wrapper unwrapping (`exec-wrapper-resolution.ts`) -/

def MAX_DISPATCH_WRAPPER_DEPTH : Nat := 4

def POSIX_SHELL_WRAPPERS : List String := ["ash", "bash", "dash", "fish", "ksh", "sh", "zsh"]
def WINDOWS_CMD_WRAPPERS : List String := ["cmd.exe", "cmd"]
def POWERSHELL_WRAPPERS : List String := ["powershell", "powershell.exe", "pwsh", "pwsh.exe"]

def POSIX_INLINE_COMMAND_FLAGS : List String := ["-lc", "-c", "--command"]
def POWERSHELL_INLINE_COMMAND_FLAGS : List String := ["-c", "-command", "--command"]

def ENV_OPTIONS_WITH_VALUE : List String :=
  ["-u", "--unset", "-c", "--chdir", "-s", "--split-string",
   "--default-signal", "--ignore-signal", "--block-signal"]

def ENV_FLAG_OPTIONS : List String := ["-i", "--ignore-environment", "-0", "--null"]

def isIdentTailChar (c : Char) : Bool :=
  isAsciiLetter c || ('0' ≤ c && c ≤ '9') || c == '_'

def envAssignTail : List Char → Bool
  | [] => false
  | c :: rest => if c == '=' then true else if isIdentTailChar c then envAssignTail rest else false

/-- `isEnvAssignment`: JS regex `/^[A-Za-z_][A-Za-z0-9_]*=.*/` test. -/
def isEnvAssignment (token : String) : Bool :=
  match token.data with
  | [] => false
  | c :: rest => (isAsciiLetter c || c == '_') && envAssignTail rest

/-- The scanning loop of `unwrapEnvInvocation`, starting at index 1 of the
argv; the `Bool` argument is the `expectsOptionValue` flag. -/
def unwrapEnvLoop : Bool → List String → Option (List String)
  | _, [] => none
  | expects, tok :: rest =>
    let t := jsTrim tok
    if t = "" then unwrapEnvLoop expects rest
    else if expects then unwrapEnvLoop false rest
    else if t = "--" ∨ t = "-" then (if rest = [] then none else some rest)
    else if isEnvAssignment t then unwrapEnvLoop false rest
    else if startsWithS t "-" then
      let lower := lowerStr t
      let flag := String.mk (takeUntilEq lower.data)
      if ENV_FLAG_OPTIONS.contains flag then unwrapEnvLoop false rest
      else if ENV_OPTIONS_WITH_VALUE.contains flag then
        unwrapEnvLoop (!lower.data.contains '=') rest
      else if startsWithS lower "-u" || startsWithS lower "-c" || startsWithS lower "-s" ||
          startsWithS lower "--unset=" || startsWithS lower "--chdir=" ||
          startsWithS lower "--split-string=" || startsWithS lower "--default-signal=" ||
          startsWithS lower "--ignore-signal=" || startsWithS lower "--block-signal=" then
        unwrapEnvLoop false rest
      else none
    else some (tok :: rest)

/-- `unwrapEnvInvocation` from `exec-wrapper-resolution.ts`. -/
def unwrapEnvInvocation : List String → Option (List String)
  | [] => none
  | _ :: rest => unwrapEnvLoop false rest

/-- The bounded loop of `unwrapDispatchWrappersForResolution`; the `Nat` is the
remaining depth budget. -/
def unwrapDispatchAux : Nat → List String → List String
  | 0, cur => cur
  | d + 1, cur =>
    let t0 := jsTrim (cur.head?.getD "")
    if t0 = "" then cur
    else if basenameLower t0 ≠ "env" then cur
    else
      match unwrapEnvInvocation cur with
      | none => cur
      | some [] => cur
      | some (u :: us) => unwrapDispatchAux d (u :: us)

/-- `unwrapDispatchWrappersForResolution` (default depth). -/
def unwrapDispatchWrappersForResolution (argv : List String) : List String :=
  unwrapDispatchAux MAX_DISPATCH_WRAPPER_DEPTH argv

/-- `resolveCommandResolutionFromArgv`, with the filesystem search
(`resolveExecutablePath`, which depends on cwd, PATH and the disk) abstracted
as the oracle `fsResolve`. -/
def resolveCommandResolutionFromArgv (fsResolve : String → Option String)
    (argv : List String) : Option CommandResolution :=
  let eff := unwrapDispatchWrappersForResolution argv
  let raw := jsTrim (eff.head?.getD "")
  if raw = "" then none
  else
    let rp := fsResolve raw
    some ⟨raw, rp,
      match rp with
      | some p => String.mk (posixBasenameL p.data)
      | none => raw⟩

/-! ## Shell wrapper extraction (`exec-wrapper-resolution.ts`) -/

inductive ShellWrapperKind where
  | posix
  | cmd
  | powershell
deriving DecidableEq

/-- `findShellWrapperSpec`: the wrapper families are searched in source order. -/
def findShellWrapperSpec (base : String) : Option ShellWrapperKind :=
  if POSIX_SHELL_WRAPPERS.contains base then some .posix
  else if WINDOWS_CMD_WRAPPERS.contains base then some .cmd
  else if POWERSHELL_WRAPPERS.contains base then some .powershell
  else none

structure ShellWrapperCommand where
  isWrapper : Bool
  command : Option String
deriving DecidableEq

/-- `extractPosixShellInlineCommand`: flag at argv index 1, command at index 2. -/
def extractPosixShellInlineCommand (argv : List String) : Option String :=
  let flag := jsTrim ((argv.get? 1).getD "")
  if flag = "" then none
  else if ¬ POSIX_INLINE_COMMAND_FLAGS.contains (lowerStr flag) then none
  else
    let cmd := jsTrim ((argv.get? 2).getD "")
    if cmd = "" then none else some cmd

/-- `extractCmdInlineCommand`. -/
def extractCmdInlineCommand (argv : List String) : Option String :=
  match argv.findIdx? (fun item => lowerStr (jsTrim item) == "/c") with
  | none => none
  | some idx =>
    let tail := argv.drop (idx + 1)
    if tail = [] then none
    else
      let cmd := jsTrim (String.intercalate " " tail)
      if cmd = "" then none else some cmd

/-- The scanning loop of `extractPowerShellInlineCommand` (from argv index 1). -/
def psInlineLoop : List String → Option String
  | [] => none
  | tok :: rest =>
    let t := jsTrim tok
    if t = "" then psInlineLoop rest
    else
      let lower := lowerStr t
      if lower = "--" then none
      else if POWERSHELL_INLINE_COMMAND_FLAGS.contains lower then
        let cmd := jsTrim (rest.head?.getD "")
        if cmd = "" then none else some cmd
      else psInlineLoop rest

/-- `extractPowerShellInlineCommand`. -/
def extractPowerShellInlineCommand (argv : List String) : Option String :=
  psInlineLoop (argv.drop 1)

/-- `extractShellWrapperPayload`. -/
def extractShellWrapperPayload (argv : List String) : ShellWrapperKind → Option String
  | .posix => extractPosixShellInlineCommand argv
  | .cmd => extractCmdInlineCommand argv
  | .powershell => extractPowerShellInlineCommand argv

/-- `extractShellWrapperCommandInternal`; the `Nat` is the remaining depth
budget (source counts up to `MAX_DISPATCH_WRAPPER_DEPTH`, we count down). -/
def extractShellWrapperCommandAux : Nat → List String → Option String → ShellWrapperCommand
  | 0, _, _ => ⟨false, none⟩
  | d + 1, argv, rawCommand =>
    let token0 := jsTrim ((argv.get? 0).getD "")
    if token0 = "" then ⟨false, none⟩
    else
      let base0 := basenameLower token0
      if base0 = "env" then
        match unwrapEnvInvocation argv with
        | none => ⟨false, none⟩
        | some u => extractShellWrapperCommandAux d u rawCommand
      else
        match findShellWrapperSpec base0 with
        | none => ⟨false, none⟩
        | some kind =>
          match extractShellWrapperPayload argv kind with
          | none => ⟨false, none⟩
          | some payload => ⟨true, some (rawCommand.getD payload)⟩

/-- `normalizeRawCommand`. -/
def normalizeRawCommand (rawCommand : Option String) : Option String :=
  match rawCommand with
  | none => none
  | some rc => if jsTrim rc = "" then none else some (jsTrim rc)

/-- `extractShellWrapperCommand`. -/
def extractShellWrapperCommand (argv : List String) (rawCommand : Option String) :
    ShellWrapperCommand :=
  extractShellWrapperCommandAux MAX_DISPATCH_WRAPPER_DEPTH argv (normalizeRawCommand rawCommand)

/-! ## System-run consistency (`exec-system-run.ts`) -/

/-- One argument of `formatExecCommand`: trim; empty becomes `""`, and anything
containing whitespace or a double quote is double-quoted with `"` escaped. -/
def formatExecArg (arg : String) : String :=
  let t := jsTrim arg
  if t = "" then "\"\""
  else if t.data.any (fun c => isSpaceJS c || c == '"') then
    "\"" ++ String.mk (t.data.flatMap (fun c => if c == '"' then ['\\', '"'] else [c])) ++ "\""
  else t

/-- `formatExecCommand`. -/
def formatExecCommand (argv : List String) : String :=
  String.intercalate " " (argv.map formatExecArg)

inductive SystemRunCommandValidation where
  | valid (shellCommand : Option String) (cmdText : String)
  | invalid (message : String) (code : String) (rawCommand : String) (inferred : String)
deriving DecidableEq

def SystemRunCommandValidation.okB : SystemRunCommandValidation → Bool
  | .valid _ _ => true
  | .invalid _ _ _ _ => false

def SystemRunCommandValidation.codeOf : SystemRunCommandValidation → Option String
  | .valid _ _ => none
  | .invalid _ code _ _ => some code

/-- The reference text a declared `rawCommand` is compared against in
`validateSystemRunCommandConsistency` (its local `inferred`): the trimmed
unwrapped inner command for a recognized shell wrapper, the canonically
re-quoted argv otherwise. -/
def inferredCommandText (argv : List String) : String :=
  match (extractShellWrapperCommand argv none).command with
  | some sc => jsTrim sc
  | none => formatExecCommand argv

/-- `validateSystemRunCommandConsistency`. -/
def validateSystemRunCommandConsistency (argv : List String) (rawCommand : Option String) :
    SystemRunCommandValidation :=
  let raw : Option String :=
    match rawCommand with
    | some rc => if jsTrim rc = "" then none else some (jsTrim rc)
    | none => none
  let shellCommand := (extractShellWrapperCommand argv none).command
  let inferred :=
    match shellCommand with
    | some sc => jsTrim sc
    | none => formatExecCommand argv
  match raw with
  | some r =>
    if r ≠ inferred then
      .invalid "INVALID_REQUEST: rawCommand does not match command" "RAW_COMMAND_MISMATCH" r inferred
    else
      .valid (match shellCommand with | some _ => some r | none => none) r
  | none =>
    .valid shellCommand
      (match shellCommand with | some sc => sc | none => inferred)

/-! ## Heredoc delimiter parsing (`splitShellPipeline` helper) -/

structure HeredocSpec where
  delimiter : List Char
  stripTabs : Bool
  quoted : Bool
deriving DecidableEq

/-- Leading run of spaces/tabs: `(consumed, rest)` with `consumed ++ rest`
equal to the input. -/
def heredocSkipSpaces : List Char → List Char × List Char
  | [] => ([], [])
  | c :: cs =>
    if c == ' ' || c == '\t' then
      let r := heredocSkipSpaces cs
      (c :: r.1, r.2)
    else ([], c :: cs)

/-- Quoted heredoc delimiter body, after the opening quote `q`:
`some (delimiter, consumed, rest)` where `consumed` includes the closing
quote; fails on end of input or a raw newline.  Inside a double-quoted
delimiter a backslash takes the next character literally. -/
def heredocQuoted (q : Char) : List Char → Option (List Char × List Char × List Char)
  | [] => none
  | c :: cs =>
    if c == '\n' || c == '\r' then none
    else if q == '"' && c == '\\' && cs ≠ [] then
      match cs with
      | [] => none
      | n :: cs2 =>
        match heredocQuoted q cs2 with
        | some (d, p, r) => some (n :: d, c :: n :: p, r)
        | none => none
    else if c == q then some ([], [c], cs)
    else
      match heredocQuoted q cs with
      | some (d, p, r) => some (c :: d, c :: p, r)
      | none => none

/-- Bare heredoc delimiter: characters up to whitespace or a shell metacharacter;
`(delimiter, rest)` with `delimiter ++ rest` equal to the input. -/
def heredocBare : List Char → List Char × List Char
  | [] => ([], [])
  | c :: cs =>
    if isSpaceJS c || c == '|' || c == '&' || c == ';' || c == '<' || c == '>' then ([], c :: cs)
    else
      let r := heredocBare cs
      (c :: r.1, r.2)

/-- `parseHeredocDelimiter` from `splitShellPipeline`:
`some (delimiter, consumed, rest, quoted)` where the scanned source is
`consumed ++ rest`. -/
def parseHeredocDelimiter (source : List Char) :
    Option (List Char × List Char × List Char × Bool) :=
  match (heredocSkipSpaces source).2 with
  | [] => none
  | c :: cs =>
    if c == '\'' || c == '"' then
      match heredocQuoted c cs with
      | some (d, p, rest) => some (d, (heredocSkipSpaces source).1 ++ c :: p, rest, true)
      | none => none
    else
      if (heredocBare (c :: cs)).1 = [] then none
      else
        some ((heredocBare (c :: cs)).1,
          (heredocSkipSpaces source).1 ++ (heredocBare (c :: cs)).1, (heredocBare (c :: cs)).2,
          false)

/-- `isEscapedInHeredocLine`/`hasUnquotedHeredocExpansionToken` scanning: the
`Bool` tracks whether the current position is preceded by an odd run of
backslashes. -/
def hasExpTokAux : Bool → List Char → Bool
  | _, [] => false
  | esc, c :: rest =>
    if c == '\\' then hasExpTokAux (!esc) rest
    else if c == '`' && !esc then true
    else if c == '$' && !esc &&
        (rest.head? == some '(' || rest.head? == some (Char.ofNat 123)) then true
    else hasExpTokAux false rest

/-- `hasUnquotedHeredocExpansionToken`: the line contains an unescaped
backtick, `$(`, or `$` followed by a left brace. -/
def hasUnquotedHeredocExpansionToken (line : List Char) : Bool :=
  hasExpTokAux false line

/-! ## The pipeline scanner (`splitShellPipeline`) -/

structure PipeState where
  buf : List Char
  segs : List (List Char)
  inSingle : Bool
  inDouble : Bool
  escaped : Bool
  emptySegment : Bool
  pending : List HeredocSpec
  inBody : Bool
  hline : List Char
deriving DecidableEq

/-- `pushPart` inside `splitShellPipeline`: push the trimmed buffer when
non-empty, always clear the buffer. -/
def pushPart (st : PipeState) : PipeState :=
  let t := trimChars st.buf
  { st with buf := [], segs := if t = [] then st.segs else st.segs ++ [t] }

def DISALLOWED_PIPELINE_TOKENS : List Char := ['>', '<', '`', '\n', '\r', '(', ')']

def DOUBLE_QUOTE_ESCAPES : List Char := ['\\', '"', '$', '`', '\n', '\r']

/-- One step of the `splitShellPipeline` character loop: given the current
state, the current character and the remaining input, produce either a
rejection or the next state together with the input still to scan (the loop
body sometimes consumes lookahead characters). -/
def pipeStep (st : PipeState) (c : Char) (rest : List Char) :
    Except String (PipeState × List Char) :=
  if st.inBody then
    if c == '\n' || c == '\r' then
      let afterLine : Option PipeState :=
        match st.pending with
        | [] => some { st with hline := [], inBody := false }
        | cur :: restP =>
          let line := if cur.stripTabs then st.hline.dropWhile (fun x => x == '\t') else st.hline
          if line = cur.delimiter then
            some { st with pending := restP, hline := [], inBody := restP ≠ [] }
          else if ¬ cur.quoted ∧ hasUnquotedHeredocExpansionToken st.hline then none
          else some { st with hline := [] }
      match afterLine with
      | none => .error "command substitution in unquoted heredoc"
      | some st2 =>
        if c == '\r' ∧ rest.head? = some '\n' then .ok (st2, rest.tail) else .ok (st2, rest)
    else .ok ({ st with hline := st.hline ++ [c] }, rest)
  else if st.escaped then
    .ok ({ st with buf := st.buf ++ [c], escaped := false, emptySegment := false }, rest)
  else if ¬ st.inSingle ∧ ¬ st.inDouble ∧ c = '\\' then
    .ok ({ st with escaped := true, buf := st.buf ++ [c], emptySegment := false }, rest)
  else if st.inSingle then
    .ok ({ st with inSingle := !(c == '\''), buf := st.buf ++ [c], emptySegment := false }, rest)
  else if st.inDouble then
    if c == '\\' && (match rest.head? with | some n => DOUBLE_QUOTE_ESCAPES.contains n | none => false) then
      .ok ({ st with buf := st.buf ++ c :: rest.take 1, emptySegment := false }, rest.tail)
    else if c = '$' ∧ rest.head? = some '(' then .error "unsupported shell token: $()"
    else if c = '`' then .error "unsupported shell token: `"
    else if c = '\n' ∨ c = '\r' then .error "unsupported shell token: newline"
    else .ok ({ st with inDouble := !(c == '"'), buf := st.buf ++ [c], emptySegment := false }, rest)
  else if c = '\'' then
    .ok ({ st with inSingle := true, buf := st.buf ++ [c], emptySegment := false }, rest)
  else if c = '"' then
    .ok ({ st with inDouble := true, buf := st.buf ++ [c], emptySegment := false }, rest)
  else if (c = '\n' ∨ c = '\r') ∧ st.pending ≠ [] then
    let st2 := { st with inBody := true, hline := [] }
    if c = '\r' ∧ rest.head? = some '\n' then .ok (st2, rest.tail) else .ok (st2, rest)
  else if c = '|' ∧ rest.head? = some '|' then .error "unsupported shell token: ||"
  else if c = '|' ∧ rest.head? = some '&' then .error "unsupported shell token: |&"
  else if c = '|' then .ok (pushPart { st with emptySegment := true }, rest)
  else if c = '&' ∨ c = ';' then .error ("unsupported shell token: " ++ c.toString)
  else if c = '<' ∧ rest.head? = some '<' then
    let rest1 := rest.tail
    let stripTabs := rest1.head? = some '-'
    let scanList := if stripTabs then rest1.tail else rest1
    let bufAdd : List Char := if stripTabs then ['<', '<', '-'] else ['<', '<']
    match parseHeredocDelimiter scanList with
    | some (delim, consumed, restAfter, quoted) =>
      .ok ({ st with buf := st.buf ++ bufAdd ++ consumed, emptySegment := false,
                     pending := st.pending ++ [⟨delim, stripTabs, quoted⟩] }, restAfter)
    | none => .ok ({ st with buf := st.buf ++ bufAdd, emptySegment := false }, rest1)
  else if c ∈ DISALLOWED_PIPELINE_TOKENS then .error ("unsupported shell token: " ++ c.toString)
  else if c = '$' ∧ rest.head? = some '(' then .error "unsupported shell token: $()"
  else .ok ({ st with buf := st.buf ++ [c], emptySegment := false }, rest)

/-- End-of-input handling of `splitShellPipeline`: final heredoc line,
unterminated-construct checks, final segment push and emptiness checks. -/
def pipelineFinish (st : PipeState) : Except String (List (List Char)) :=
  let st1 :=
    if st.inBody ∧ st.pending ≠ [] then
      match st.pending with
      | [] => st
      | cur :: restP =>
        let line := if cur.stripTabs then st.hline.dropWhile (fun x => x == '\t') else st.hline
        if line = cur.delimiter then
          { st with pending := restP, inBody := restP ≠ [] }
        else st
    else st
  if st1.pending ≠ [] ∨ st1.inBody then .error "unterminated heredoc"
  else if st1.escaped ∨ st1.inSingle ∨ st1.inDouble then .error "unterminated shell quote/escape"
  else
    let st2 := pushPart st1
    if st2.emptySegment ∨ st2.segs = [] then
      .error (if st2.segs = [] then "empty command" else "empty pipeline segment")
    else .ok st2.segs

/-- The `splitShellPipeline` character loop, fuelled (one unit of fuel per
step; each step consumes at least one character, so `length + 1` suffices). -/
def pipelineLoopF : Nat → PipeState → List Char → Except String (List (List Char))
  | _, st, [] => pipelineFinish st
  | 0, _, _ :: _ => .error "out of fuel"
  | fuel + 1, st, c :: rest =>
    match pipeStep st c rest with
    | .error e => .error e
    | .ok (st2, rest2) => pipelineLoopF fuel st2 rest2

def initPipeState : PipeState :=
  ⟨[], [], false, false, false, false, [], false, []⟩

/-- Run the pipeline loop with sufficient fuel. -/
def pipelineRun (st : PipeState) (cs : List Char) : Except String (List (List Char)) :=
  pipelineLoopF (cs.length + 1) st cs

structure SplitPipelineResult where
  ok : Bool
  reason : Option String
  segments : List (List Char)
deriving DecidableEq

/-- `splitShellPipeline` from `exec-approvals-analysis.ts`. -/
def splitShellPipeline (command : List Char) : SplitPipelineResult :=
  match pipelineRun initPipeState command with
  | .ok segs => ⟨true, none, segs⟩
  | .error r => ⟨false, some r, []⟩

/-! ## The chain scanner (`splitCommandChainWithOperators`) -/

structure ChainState where
  buf : List Char
  parts : List ShellChainPart
  inSingle : Bool
  inDouble : Bool
  escaped : Bool
  foundChain : Bool
  invalidChain : Bool
deriving DecidableEq

/-- `pushPart` inside `splitCommandChainWithOperators` (also records that a
chain operator was found, as the caller does after each push). -/
def chainPushOp (st : ChainState) (op : ShellChainOperator) : ChainState :=
  let t := trimChars st.buf
  if t = [] then { st with buf := [], invalidChain := true, foundChain := true }
  else { st with buf := [], parts := st.parts ++ [⟨t, some op⟩], foundChain := true }

/-- One step of the `splitCommandChainWithOperators` character loop. -/
def chainStep (st : ChainState) (c : Char) (rest : List Char) : ChainState × List Char :=
  if st.escaped then ({ st with buf := st.buf ++ [c], escaped := false }, rest)
  else if ¬ st.inSingle ∧ ¬ st.inDouble ∧ c = '\\' then
    ({ st with escaped := true, buf := st.buf ++ [c] }, rest)
  else if st.inSingle then ({ st with inSingle := !(c == '\''), buf := st.buf ++ [c] }, rest)
  else if st.inDouble then
    if c == '\\' && (match rest.head? with | some n => DOUBLE_QUOTE_ESCAPES.contains n | none => false) then
      ({ st with buf := st.buf ++ c :: rest.take 1 }, rest.tail)
    else ({ st with inDouble := !(c == '"'), buf := st.buf ++ [c] }, rest)
  else if c = '\'' then ({ st with inSingle := true, buf := st.buf ++ [c] }, rest)
  else if c = '"' then ({ st with inDouble := true, buf := st.buf ++ [c] }, rest)
  else if c = '&' ∧ rest.head? = some '&' then (chainPushOp st .andOp, rest.tail)
  else if c = '|' ∧ rest.head? = some '|' then (chainPushOp st .orOp, rest.tail)
  else if c = ';' then (chainPushOp st .semi, rest)
  else ({ st with buf := st.buf ++ [c] }, rest)

/-- End-of-input handling of `splitCommandChainWithOperators`. -/
def chainFinish (st : ChainState) : Option (List ShellChainPart) :=
  if ¬ st.foundChain then none
  else
    let t := trimChars st.buf
    if t = [] then none
    else
      let parts := st.parts ++ [⟨t, none⟩]
      if st.invalidChain ∨ parts = [] then none else some parts

/-- The `splitCommandChainWithOperators` character loop, fuelled. -/
def chainLoopF : Nat → ChainState → List Char → Option (List ShellChainPart)
  | _, st, [] => chainFinish st
  | 0, _, _ :: _ => none
  | fuel + 1, st, c :: rest =>
    let s := chainStep st c rest
    chainLoopF fuel s.1 s.2

def initChainState : ChainState :=
  ⟨[], [], false, false, false, false, false⟩

/-- Run the chain loop with sufficient fuel. -/
def chainRun (st : ChainState) (cs : List Char) : Option (List ShellChainPart) :=
  chainLoopF (cs.length + 1) st cs

/-- `splitCommandChainWithOperators`. -/
def splitCommandChainWithOperators (command : String) : Option (List ShellChainPart) :=
  chainRun initChainState command.data

/-- `splitCommandChain`. -/
def splitCommandChain (command : String) : Option (List String) :=
  (splitCommandChainWithOperators command).map (List.map (fun p => String.mk p.part))

/-! ## Segment argv splitting

`splitShellArgs` lives in `src/utils/shell-argv.ts`, which is not among the
provided sources; only its call sites are. -/

/-- Modelled from the spec: `splitShellArgs` (imported from
`../utils/shell-argv.js`) is not part of the provided sources.  §4.4 only says
that every pipeline segment is argv-tokenized and that a failure of
argv-splitting fails the whole analysis ("unable to parse shell segment"), so
we model a standard POSIX-style splitter: whitespace separates tokens, single
quotes are literal, double quotes admit the backslash escapes `\ " $ \``, a
backslash escapes the next character outside quotes, and an unterminated
quote or trailing escape yields `none`.  The state holds: remaining fuel,
input, `inSingle`, `inDouble`, `escaped`, `started` (a token is open), the
current token, and the accumulated tokens. -/
def splitShellArgsAux :
    Nat → List Char → Bool → Bool → Bool → Bool → List Char → List String →
    Option (List String)
  | _, [], inS, inD, esc, started, cur, acc =>
    if inS || inD || esc then none
    else some (acc ++ if started then [String.mk cur] else [])
  | 0, _ :: _, _, _, _, _, _, _ => none
  | fuel + 1, c :: rest, inS, inD, esc, started, cur, acc =>
    if esc then splitShellArgsAux fuel rest inS inD false true (cur ++ [c]) acc
    else if inS then
      if c == '\'' then splitShellArgsAux fuel rest false false false true cur acc
      else splitShellArgsAux fuel rest true false false true (cur ++ [c]) acc
    else if inD then
      if c == '\\' &&
          (match rest.head? with
           | some n => n == '\\' || n == '"' || n == '$' || n == '`'
           | none => false) then
        splitShellArgsAux fuel rest.tail false true false true (cur ++ rest.take 1) acc
      else if c == '"' then splitShellArgsAux fuel rest false false false true cur acc
      else splitShellArgsAux fuel rest false true false true (cur ++ [c]) acc
    else if c == '\\' then splitShellArgsAux fuel rest false false true started cur acc
    else if c == '\'' then splitShellArgsAux fuel rest true false false true cur acc
    else if c == '"' then splitShellArgsAux fuel rest false true false true cur acc
    else if isSpaceJS c then
      if started then splitShellArgsAux fuel rest false false false false [] (acc ++ [String.mk cur])
      else splitShellArgsAux fuel rest false false false false [] acc
    else splitShellArgsAux fuel rest false false false true (cur ++ [c]) acc

/-- Modelled from the spec: see `splitShellArgsAux`. -/
def splitShellArgs (s : String) : Option (List String) :=
  splitShellArgsAux (s.data.length + 1) s.data false false false false [] []

/-- `parseSegmentsFromParts`: argv-split every pipeline part; any failure (or
empty argv) fails the whole list. -/
def parseSegmentsFromParts (fsResolve : String → Option String) :
    List (List Char) → Option (List ExecCommandSegment)
  | [] => some []
  | raw :: rest =>
    match splitShellArgs (String.mk raw) with
    | none => none
    | some [] => none
    | some (a :: as) =>
      match parseSegmentsFromParts fsResolve rest with
      | none => none
      | some segs =>
        some (⟨String.mk raw, a :: as, resolveCommandResolutionFromArgv fsResolve (a :: as)⟩ :: segs)

/-! ## Windows-mode analysis -/

def WINDOWS_UNSUPPORTED_TOKENS : List Char :=
  ['&', '|', '<', '>', '^', '(', ')', '%', '!', '\n', '\r']

/-- `findWindowsUnsupportedToken`. -/
def findWindowsUnsupportedToken : List Char → Option String
  | [] => none
  | c :: rest =>
    if WINDOWS_UNSUPPORTED_TOKENS.contains c then
      some (if c == '\n' || c == '\r' then "newline" else c.toString)
    else findWindowsUnsupportedToken rest

/-- The loop of `tokenizeWindowsSegment`. -/
def tokenizeWindowsAux : List Char → Bool → List Char → List String → Option (List String)
  | [], inD, buf, toks =>
    if inD then none
    else
      let ts := toks ++ (if buf = [] then [] else [String.mk buf])
      if ts = [] then none else some ts
  | c :: rest, inD, buf, toks =>
    if c == '"' then tokenizeWindowsAux rest (!inD) buf toks
    else if !inD && isSpaceJS c then
      tokenizeWindowsAux rest inD [] (toks ++ (if buf = [] then [] else [String.mk buf]))
    else tokenizeWindowsAux rest inD (buf ++ [c]) toks

/-- `tokenizeWindowsSegment`. -/
def tokenizeWindowsSegment (segment : List Char) : Option (List String) :=
  tokenizeWindowsAux segment false [] []

/-- `isWindowsPlatform`. -/
def isWindowsPlatform (platform : Option String) : Bool :=
  startsWithS (lowerStr (jsTrim (platform.getD ""))) "win"

/-- `analyzeWindowsShellCommand`. -/
def analyzeWindowsShellCommand (fsResolve : String → Option String) (command : String) :
    ExecCommandAnalysis :=
  match findWindowsUnsupportedToken command.data with
  | some t => ⟨false, some ("unsupported windows shell token: " ++ t), [], none⟩
  | none =>
    match tokenizeWindowsSegment command.data with
    | none => ⟨false, some "unable to parse windows command", [], none⟩
    | some [] => ⟨false, some "unable to parse windows command", [], none⟩
    | some (a :: as) =>
      ⟨true, none,
        [⟨command, a :: as, resolveCommandResolutionFromArgv fsResolve (a :: as)⟩], none⟩

/-! ## analyzeShellCommand / analyzeArgvCommand -/

/-- The chain-part loop of `analyzeShellCommand`: pipeline-split and
argv-tokenize every chain part; the error payload is the `reason` that the
analysis result reports. -/
def analyzeChainParts (fsResolve : String → Option String) :
    List (List Char) →
    Except (Option String) (List ExecCommandSegment × List (List ExecCommandSegment))
  | [] => .ok ([], [])
  | part :: rest =>
    let ps := splitShellPipeline part
    if ps.ok = false then .error ps.reason
    else
      match parseSegmentsFromParts fsResolve ps.segments with
      | none => .error (some "unable to parse shell segment")
      | some segs =>
        match analyzeChainParts fsResolve rest with
        | .error r => .error r
        | .ok (allSegs, chains) => .ok (segs ++ allSegs, segs :: chains)

/-- `analyzeShellCommand` (with the filesystem oracle and the `platform`
parameter; `cwd`/`env` are part of the oracle). -/
def analyzeShellCommand (fsResolve : String → Option String) (platform : Option String)
    (command : String) : ExecCommandAnalysis :=
  if isWindowsPlatform platform then analyzeWindowsShellCommand fsResolve command
  else
    match splitCommandChainWithOperators command with
    | some parts =>
      match analyzeChainParts fsResolve (parts.map (fun p => p.part)) with
      | .error r => ⟨false, r, [], none⟩
      | .ok (allSegs, chains) => ⟨true, none, allSegs, some chains⟩
    | none =>
      if (splitShellPipeline command.data).ok = false then
        ⟨false, (splitShellPipeline command.data).reason, [], none⟩
      else
        match parseSegmentsFromParts fsResolve (splitShellPipeline command.data).segments with
        | none => ⟨false, some "unable to parse shell segment", [], none⟩
        | some segs => ⟨true, none, segs, none⟩

/-- `analyzeArgvCommand`. -/
def analyzeArgvCommand (fsResolve : String → Option String) (argvIn : List String) :
    ExecCommandAnalysis :=
  let argv := argvIn.filter (fun e => jsTrim e ≠ "")
  if argv = [] then ⟨false, some "empty argv", [], none⟩
  else
    ⟨true, none,
      [⟨String.intercalate " " argv, argv, resolveCommandResolutionFromArgv fsResolve argv⟩], none⟩

/-! ## Safe-bins command rewriting -/

inductive SegmentSatisfier where
  | allowlist
  | safeBins
  | skills
deriving DecidableEq

/-- `shellEscapeSingleArg`. -/
def shellEscapeSingleArg (value : String) : String :=
  "'" ++ String.mk (value.data.flatMap (fun c => if c == '\'' then "'\"'\"'".data else [c])) ++ "'"

/-- `renderQuotedArgv`. -/
def renderQuotedArgv (argv : List String) : String :=
  String.intercalate " " (argv.map shellEscapeSingleArg)

structure BuildCommandResult where
  ok : Bool
  command : Option String
  reason : Option String
deriving DecidableEq

/-- The per-pipeline-segment rendering loop of `buildSafeBinsShellCommand`:
consumes the pipeline parts of one chain part, threading the global segment
index; segments satisfied by `safeBins` are rendered as their literal-quoted
argv, every other segment as its original raw text (trimmed). -/
def buildSafeBinsRender (segments : List ExecCommandSegment)
    (segmentSatisfiedBy : List (Option SegmentSatisfier)) :
    List (List Char) → Nat → Except String (List String × Nat)
  | [], segIndex => .ok ([], segIndex)
  | raw :: rest, segIndex =>
    match segments.get? segIndex, segmentSatisfiedBy.get? segIndex with
    | some seg, some sat =>
      let needsLiteral := sat = some SegmentSatisfier.safeBins
      let r := if needsLiteral then renderQuotedArgv seg.argv else String.mk (trimChars raw)
      match buildSafeBinsRender segments segmentSatisfiedBy rest (segIndex + 1) with
      | .error e => .error e
      | .ok (rs, fin) => .ok (r :: rs, fin)
    | _, _ => .error "segment mapping failed"

/-- The chain-part loop of `buildSafeBinsShellCommand`. -/
def buildSafeBinsParts (segments : List ExecCommandSegment)
    (segmentSatisfiedBy : List (Option SegmentSatisfier)) :
    List ShellChainPart → Nat → Except String (String × Nat)
  | [], segIndex => .ok ("", segIndex)
  | p :: rest, segIndex =>
    let ps := splitShellPipeline p.part
    if ps.ok = false then .error (ps.reason.getD "unable to parse pipeline")
    else
      match buildSafeBinsRender segments segmentSatisfiedBy ps.segments segIndex with
      | .error e => .error e
      | .ok (rendered, segIndex2) =>
        let chunk := String.intercalate " | " rendered ++
          (match p.opToNext with
           | some op => " " ++ op.render ++ " "
           | none => "")
        match buildSafeBinsParts segments segmentSatisfiedBy rest segIndex2 with
        | .error e => .error e
        | .ok (out, fin) => .ok (chunk ++ out, fin)

/-- `buildSafeBinsShellCommand`. -/
def buildSafeBinsShellCommand (command : String) (segments : List ExecCommandSegment)
    (segmentSatisfiedBy : List (Option SegmentSatisfier)) (platform : Option String) :
    BuildCommandResult :=
  if isWindowsPlatform platform then ⟨false, none, some "unsupported platform"⟩
  else if segments.length ≠ segmentSatisfiedBy.length then
    ⟨false, none, some "segment metadata mismatch"⟩
  else
    let trimmedCmd := jsTrim command
    let chainParts := (splitCommandChainWithOperators trimmedCmd).getD [⟨trimmedCmd.data, none⟩]
    match buildSafeBinsParts segments segmentSatisfiedBy chainParts 0 with
    | .error e => ⟨false, none, some e⟩
    | .ok (out, segIndex) =>
      if segIndex ≠ segments.length then ⟨false, none, some "segment count mismatch"⟩
      else ⟨true, some out, none⟩

/-! ## Reference predicate for claim C1 (from the spec's words)

A one-character-per-step quote-tracking scanner for the sentence "an unescaped
`$(` or backtick appears outside single quotes (including inside double
quotes)".  Escaping follows the spec's own escape rules (§4.4): outside quotes
a backslash escapes the next character; inside double quotes a backslash
starts a two-character escape; single-quoted text is fully literal.  The
`dollar` flag records that the previous character was an unescaped `$` outside
single quotes, so that `$(` is detected without lookahead. -/

structure RefScanState where
  inSingle : Bool
  inDouble : Bool
  escaped : Bool
  dollar : Bool
deriving DecidableEq

/-- Transition of the reference scanner. -/
def refStep (st : RefScanState) (c : Char) : RefScanState :=
  if st.escaped then ⟨st.inSingle, st.inDouble, false, false⟩
  else if st.inSingle then ⟨!(c == '\''), false, false, false⟩
  else if st.inDouble then
    if c == '\\' then ⟨false, true, true, false⟩
    else ⟨false, !(c == '"'), false, c == '$'⟩
  else
    if c == '\\' then ⟨false, false, true, false⟩
    else if c == '\'' then ⟨true, false, false, false⟩
    else if c == '"' then ⟨false, true, false, false⟩
    else ⟨false, false, false, c == '$'⟩

/-- Does the current character witness an unescaped substitution token
(closing `(` of `$(`, or a backtick) outside single quotes? -/
def refHit (st : RefScanState) (c : Char) : Bool :=
  if st.dollar && c == '(' then true
  else if st.escaped then false
  else if st.inSingle then false
  else c == '`'

/-- Scan for an unescaped `$(` or backtick outside single quotes. -/
def refScan : RefScanState → List Char → Bool
  | _, [] => false
  | st, c :: rest => refHit st c || refScan (refStep st c) rest

/-- Final scanner state after a list of characters. -/
def refStateRun (st : RefScanState) (cs : List Char) : RefScanState :=
  cs.foldl refStep st

def refState0 : RefScanState := ⟨false, false, false, false⟩

/-- The spec-side predicate of claim C1: the command contains an unescaped
`$(` or backtick outside single quotes (including inside double quotes). -/
def hasUnescapedSubstitutionToken (command : String) : Bool :=
  refScan refState0 command.data

/-! ## Spec-side description of a recognized `env` prefix (claim C6)

The spec (§4.3) describes the tokens `unwrapEnvInvocation` skips before the
inner command: `VAR=value` assignments, the value-less flags
(`-i`, `--ignore-environment`, `-0`, `--null`), the value-taking flags
(`-u`, `--unset`, `-c`, `--chdir`, `-s`, `--split-string`, `--default-signal`,
`--ignore-signal`, `--block-signal`) either with a separate (non-blank) value
token or in attached
`--flag=value` / `-uVALUE` form. -/

def isEnvFlagOnlyToken (t : String) : Bool :=
  startsWithS t "-" && ENV_FLAG_OPTIONS.contains (lowerStr t)

def isEnvValueFlagToken (t : String) : Bool :=
  startsWithS t "-" && ENV_OPTIONS_WITH_VALUE.contains (lowerStr t)

def isEnvAttachedValueToken (t : String) : Bool :=
  let lower := lowerStr t
  startsWithS lower "--unset=" || startsWithS lower "--chdir=" ||
  startsWithS lower "--split-string=" || startsWithS lower "--default-signal=" ||
  startsWithS lower "--ignore-signal=" || startsWithS lower "--block-signal="

/-- The spec-side shape of the token run between `env` and the inner command:
each item is an assignment, a value-less flag, a value-taking flag together
with its separate non-blank value token, or an attached `flag=value` token. -/
def envPrefixOk : List String → Bool
  | [] => true
  | t :: rest =>
    if isEnvAssignment (jsTrim t) then envPrefixOk rest
    else if isEnvFlagOnlyToken (jsTrim t) then envPrefixOk rest
    else if isEnvValueFlagToken (jsTrim t) then
      match rest with
      | [] => false
      | v :: rest2 => jsTrim v ≠ "" && envPrefixOk rest2
    else if startsWithS (jsTrim t) "-" && isEnvAttachedValueToken (jsTrim t) then envPrefixOk rest
    else false

/-- The empty filesystem oracle (no executable resolves) used to instantiate
concrete analyses. -/
def noResolve : String → Option String := fun _ => none

/-- A filesystem oracle that resolves exactly `rg` (used for the claim C6
counterexample). -/
def rgOnly : String → Option String :=
  fun s => if s = "rg" then some "/usr/bin/rg" else none

/-! ## Helper lemmas -/

theorem splitAtFirst_not_mem {t : Char} {l : List Char} (h : t ∉ l) : splitAtFirst t l = none := by
  induction l with
  | nil => rfl
  | cons c cs ih =>
    simp only [List.mem_cons, not_or] at h
    simp [splitAtFirst, ih h.2, beq_iff_eq, h.1, Ne.symm h.1]

theorem splitAtFirst_found {t : Char} {pre post : List Char} (h : t ∉ pre) :
    splitAtFirst t (pre ++ t :: post) = some (pre, post) := by
  induction pre with
  | nil => simp [splitAtFirst]
  | cons c cs ih =>
    simp only [List.mem_cons, not_or] at h
    simp [splitAtFirst, ih h.2, beq_iff_eq, h.1, Ne.symm h.1]

/-! ## Claim C9: `parseExecArgvToken` classification -/

/-- C9: `parseExecArgvToken` classifies by leading characters only: `""` is
`empty`, exactly `"--"` is `terminator`, exactly `"-"` is `stdin`, a string not
starting with `-` is `positional`; a string starting with `--` that contains
`=` is a long option split at the first `=` (flag before, inline value after),
otherwise the whole string is the flag with no inline value; and a string
starting with a single `-` is a short cluster whose flags are `-` prepended to
each character of the remainder. -/
theorem parseExecArgvToken_classification :
    parseExecArgvToken "" = ExecArgvToken.empty "" ∧
    parseExecArgvToken "--" = ExecArgvToken.terminator "--" ∧
    parseExecArgvToken "-" = ExecArgvToken.stdin "-" ∧
    (∀ raw : String, raw ≠ "" → startsWithS raw "-" = false →
      parseExecArgvToken raw = ExecArgvToken.positional raw) ∧
    (∀ (raw : String) (pre post : List Char), raw.data = '-' :: '-' :: pre ++ '=' :: post →
      '=' ∉ pre →
      parseExecArgvToken raw
        = ExecArgvToken.longOption raw (String.mk ('-' :: '-' :: pre)) (some (String.mk post))) ∧
    (∀ (raw : String) (l : List Char), raw.data = '-' :: '-' :: l → '=' ∉ l → raw ≠ "--" →
      parseExecArgvToken raw = ExecArgvToken.longOption raw raw none) ∧
    (∀ (raw : String) (c : Char) (cs : List Char), raw.data = '-' :: c :: cs → c ≠ '-' →
      parseExecArgvToken raw
        = ExecArgvToken.shortCluster raw (String.mk (c :: cs))
            ((c :: cs).map (fun x => String.mk ['-', x]))) := by
  refine ⟨by decide, by decide, by decide, ?_, ?_, ?_, ?_⟩
  · intro raw hne hs
    have h2 : raw ≠ "--" := by
      intro h; subst h; simp [startsWithS, startsWithL] at hs
    have h1 : raw ≠ "-" := by
      intro h; subst h; simp [startsWithS, startsWithL] at hs
    simp [parseExecArgvToken, hne, h2, h1, hs]
  · intro raw pre post hdata hmem
    have hne : raw ≠ "" := by
      intro h; subst h; simp at hdata
    have h2 : raw ≠ "--" := by
      intro h; subst h
      have hmm : ('=' : Char) ∈ ("--" : String).data := by
        rw [hdata]; simp
      simp at hmm
    have h1 : raw ≠ "-" := by
      intro h; subst h
      have := congrArg List.length hdata
      simp at this
    have hs1 : startsWithS raw "-" = true := by
      simp [startsWithS, startsWithL, hdata]
    have hs2 : startsWithS raw "--" = true := by
      simp [startsWithS, startsWithL, hdata]
    have hsplit : splitAtFirst '=' raw.data = some ('-' :: '-' :: pre, post) := by
      rw [hdata]
      have : ('=' : Char) ∉ '-' :: '-' :: pre := by simp [hmem]
      simpa using @splitAtFirst_found '=' ('-' :: '-' :: pre) post this
    simp [parseExecArgvToken, hne, h2, h1, hs1, hs2, hsplit]
  · intro raw l hdata hmem h2
    have hne : raw ≠ "" := by
      intro h; subst h; simp at hdata
    have h1 : raw ≠ "-" := by
      intro h; subst h
      have := congrArg List.length hdata
      simp at this
    have hs1 : startsWithS raw "-" = true := by
      simp [startsWithS, startsWithL, hdata]
    have hs2 : startsWithS raw "--" = true := by
      simp [startsWithS, startsWithL, hdata]
    have hsplit : splitAtFirst '=' raw.data = none := by
      rw [hdata]
      apply splitAtFirst_not_mem
      simp [hmem]
    simp [parseExecArgvToken, hne, h2, h1, hs1, hs2, hsplit]
  · intro raw c cs hdata hc
    have hne : raw ≠ "" := by
      intro h; subst h; simp at hdata
    have h2 : raw ≠ "--" := by
      intro h; subst h
      have : ("--" : String).data = '-' :: c :: cs := hdata
      simp at this
      exact hc this.1.symm
    have h1 : raw ≠ "-" := by
      intro h; subst h
      have := congrArg List.length hdata
      simp at this
    have hs1 : startsWithS raw "-" = true := by
      simp [startsWithS, startsWithL, hdata]
    have hs2 : startsWithS raw "--" = false := by
      simp [startsWithS, startsWithL, hdata, hc, Ne.symm hc]
    simp [parseExecArgvToken, hne, h2, h1, hs1, hs2, hdata]

/-- Witness for C9 at concrete inputs (long option with inline value, and a
short cluster). -/
theorem parseExecArgvToken_classification_witness :
    parseExecArgvToken "--out=x" = ExecArgvToken.longOption "--out=x" "--out" (some "x") ∧
    parseExecArgvToken "-abc" = ExecArgvToken.shortCluster "-abc" "abc" ["-a", "-b", "-c"] := by
  constructor
  · exact (parseExecArgvToken_classification.2.2.2.2.1 "--out=x" ['o', 'u', 't'] ['x']
      (by decide) (by decide)).trans (by decide)
  · exact (parseExecArgvToken_classification.2.2.2.2.2.2 "-abc" 'a' ['b', 'c']
      (by decide) (by decide)).trans (by decide)

/-! ## Claim C10: `analyzeArgvCommand` applies no shell-grammar checks -/

/-- C10: for every argv, if every entry is blank (empty or whitespace-only)
the result is `ok = false` with reason `"empty argv"` and no segments;
otherwise the result is `ok = true` with exactly one segment whose argv is the
input with blank entries removed — even when entries contain shell
metacharacters. -/
theorem analyzeArgvCommand_no_shell_checks :
    ∀ (fsResolve : String → Option String) (argv : List String),
    ((∀ e ∈ argv, jsTrim e = "") →
      analyzeArgvCommand fsResolve argv = ⟨false, some "empty argv", [], none⟩) ∧
    ((¬ ∀ e ∈ argv, jsTrim e = "") →
      analyzeArgvCommand fsResolve argv =
        ⟨true, none,
          [⟨String.intercalate " " (argv.filter (fun e => jsTrim e ≠ "")),
            argv.filter (fun e => jsTrim e ≠ ""),
            resolveCommandResolutionFromArgv fsResolve
              (argv.filter (fun e => jsTrim e ≠ ""))⟩], none⟩) := by
  intro fsResolve argv
  constructor
  · intro h
    have hf : argv.filter (fun e => jsTrim e ≠ "") = [] := by
      simp only [List.filter_eq_nil_iff, decide_not]
      intro a ha
      simp [h a ha]
    simp only [analyzeArgvCommand, hf]
    rfl
  · intro h
    push_neg at h
    obtain ⟨a, ha, hne⟩ := h
    have hf : argv.filter (fun e => jsTrim e ≠ "") ≠ [] := by
      intro hc
      have hmem : a ∈ argv.filter (fun e => jsTrim e ≠ "") :=
        List.mem_filter.2 ⟨ha, by simpa using hne⟩
      rw [hc] at hmem
      simp at hmem
    simp only [analyzeArgvCommand, ne_eq]
    split
    · rename_i hcon
      exact absurd (by simpa using hcon) hf
    · rfl

/-- Witness for C10: an argv entry full of shell metacharacters is passed
through untouched, and an all-blank argv is rejected. -/
theorem analyzeArgvCommand_no_shell_checks_witness :
    analyzeArgvCommand noResolve ["$(x)|;`", " "] =
      ⟨true, none, [⟨"$(x)|;`", ["$(x)|;`"], resolveCommandResolutionFromArgv noResolve ["$(x)|;`"]⟩],
        none⟩ ∧
    analyzeArgvCommand noResolve ["", " "] = ⟨false, some "empty argv", [], none⟩ := by
  constructor
  · exact ((analyzeArgvCommand_no_shell_checks noResolve ["$(x)|;`", " "]).2
      (by intro h; exact absurd (h "$(x)|;`" (by simp)) (by decide))).trans (by decide)
  · exact (analyzeArgvCommand_no_shell_checks noResolve ["", " "]).1 (by decide)

/-! ## Claim C4: empty pipeline segments -/

/-- C4 counterexample: `"| echo hi"` has a top-level pipe whose left side is
empty, yet `splitShellPipeline` (and hence `analyzeShellCommand`) accepts it,
silently dropping the empty segment — refuting the claim that every empty
segment yields `ok = false` with reason `"empty pipeline segment"`. -/
theorem splitShellPipeline_empty_segment_dropped_cx :
    splitShellPipeline "| echo hi".data = ⟨true, none, ["echo hi".data]⟩ ∧
    (analyzeShellCommand noResolve none "| echo hi").ok = true := by
  constructor
  · decide
  · decide

/-- C4 amended: only a pipe that is the final character of the command (with a
non-empty segment already accumulated) is rejected with reason
`"empty pipeline segment"`; a bare `"|"` is rejected as `"empty command"`;
leading and interior empty segments — and even a trailing pipe followed by
whitespace — are silently dropped and the remaining segments accepted. -/
theorem splitShellPipeline_empty_segment_behavior :
    splitShellPipeline "a |".data = ⟨false, some "empty pipeline segment", []⟩ ∧
    (analyzeShellCommand noResolve none "a |")
      = ⟨false, some "empty pipeline segment", [], none⟩ ∧
    splitShellPipeline "|".data = ⟨false, some "empty command", []⟩ ∧
    splitShellPipeline "| echo hi".data = ⟨true, none, ["echo hi".data]⟩ ∧
    splitShellPipeline "a | | b".data = ⟨true, none, ["a".data, "b".data]⟩ ∧
    splitShellPipeline "a | ".data = ⟨true, none, ["a".data]⟩ := by
  refine ⟨by decide, by decide, by decide, by decide, by decide, by decide⟩

/-! ## Claim C5: POSIX shell wrapper extraction -/

/-- C5 counterexample: `["/bin/sh", "-x", "-c", "ls"]` is a POSIX shell argv
containing the inline-command flag `-c` followed by the non-empty argument
`"ls"`, yet `extractShellWrapperCommand` does not report a wrapper — the
source only recognizes the flag in argv position 1. -/
theorem extractShellWrapperCommand_flag_position_cx :
    basenameLower "/bin/sh" = "sh" ∧
    extractShellWrapperCommand ["/bin/sh", "-x", "-c", "ls"] none = ⟨false, none⟩ := by
  constructor
  · decide
  · decide

/-- C5 amended: for every argv whose first token's basename (case-insensitive)
is a POSIX shell, whose *second* token is `-c`, `-lc` or `--command`
(case-insensitive) and whose *third* token is non-empty after trimming,
`extractShellWrapperCommand` reports a wrapper with the trimmed third token as
the inline command. -/
theorem extractShellWrapperCommand_posix_inline :
    ∀ (a0 a1 a2 : String) (rest : List String),
    POSIX_SHELL_WRAPPERS.contains (basenameLower (jsTrim a0)) = true →
    POSIX_INLINE_COMMAND_FLAGS.contains (lowerStr (jsTrim a1)) = true →
    jsTrim a2 ≠ "" →
    extractShellWrapperCommand (a0 :: a1 :: a2 :: rest) none = ⟨true, some (jsTrim a2)⟩ := by
  intro a0 a1 a2 rest hshell hflag hcmd
  have h0 : jsTrim a0 ≠ "" := by
    intro h
    rw [h] at hshell
    revert hshell
    decide
  have h1 : jsTrim a1 ≠ "" := by
    intro h
    rw [h] at hflag
    revert hflag
    decide
  have henv : basenameLower (jsTrim a0) ≠ "env" := by
    intro h
    rw [h] at hshell
    revert hshell
    decide
  have hshellMem : basenameLower (jsTrim a0) ∈ POSIX_SHELL_WRAPPERS := by
    simpa using hshell
  have hflagMem : lowerStr (jsTrim a1) ∈ POSIX_INLINE_COMMAND_FLAGS := by
    simpa using hflag
  have hspec : findShellWrapperSpec (basenameLower (jsTrim a0)) = some .posix := by
    simp [findShellWrapperSpec, hshellMem]
  have hpayload : extractPosixShellInlineCommand (a0 :: a1 :: a2 :: rest) = some (jsTrim a2) := by
    simp [extractPosixShellInlineCommand, List.get?, h1, hflagMem, hcmd]
  simp [extractShellWrapperCommand, normalizeRawCommand, MAX_DISPATCH_WRAPPER_DEPTH,
    extractShellWrapperCommandAux, List.get?, h0, henv, hspec, extractShellWrapperPayload,
    hpayload]

/-- Witness for C5 at the spec's concrete example. -/
theorem extractShellWrapperCommand_posix_inline_witness :
    extractShellWrapperCommand ["/bin/zsh", "-lc", "whoami && ls"] none
      = ⟨true, some "whoami && ls"⟩ := by
  exact (extractShellWrapperCommand_posix_inline "/bin/zsh" "-lc" "whoami && ls" []
    (by decide) (by decide) (by decide)).trans (by decide)

/-! ## Claim C7: rawCommand consistency validation -/

/-- C7 counterexample: the declared rawCommand `" "` is a non-empty string
whose trimmed form differs from the reference text of `["ls"]`, yet
`validateSystemRunCommandConsistency` reports success — whitespace-only
rawCommands are treated as absent. -/
theorem validateSystemRunCommand_blank_raw_cx :
    jsTrim " " ≠ inferredCommandText ["ls"] ∧
    validateSystemRunCommandConsistency ["ls"] (some " ") = .valid none "ls" := by
  constructor
  · decide
  · decide

/-- C7 amended: for every argv and every declared rawCommand that is non-empty
*after trimming*, the validation fails with code `RAW_COMMAND_MISMATCH`
exactly when the trimmed rawCommand differs from the reference text (the
unwrapped inner command for a recognized shell wrapper, the canonically
re-quoted argv otherwise); it succeeds when they agree, and always succeeds
when no rawCommand is declared. -/
theorem validateSystemRunCommand_mismatch_iff :
    ∀ (argv : List String) (raw : String), jsTrim raw ≠ "" →
    (jsTrim raw = inferredCommandText argv →
      (validateSystemRunCommandConsistency argv (some raw)).okB = true) ∧
    (jsTrim raw ≠ inferredCommandText argv →
      validateSystemRunCommandConsistency argv (some raw) =
        .invalid "INVALID_REQUEST: rawCommand does not match command" "RAW_COMMAND_MISMATCH"
          (jsTrim raw) (inferredCommandText argv)) ∧
    (validateSystemRunCommandConsistency argv none).okB = true := by
  intro argv raw hraw
  refine ⟨?_, ?_, ?_⟩
  · intro heq
    simp only [validateSystemRunCommandConsistency, hraw, inferredCommandText] at *
    cases hsc : (extractShellWrapperCommand argv none).command with
    | none =>
      simp only [hsc] at heq ⊢
      simp [heq, if_neg hraw, SystemRunCommandValidation.okB]
    | some sc =>
      simp only [hsc] at heq ⊢
      simp [heq, if_neg hraw, SystemRunCommandValidation.okB]
  · intro hne
    simp only [validateSystemRunCommandConsistency, inferredCommandText] at *
    cases hsc : (extractShellWrapperCommand argv none).command with
    | none =>
      simp only [hsc] at hne ⊢
      simp [if_neg hraw, hne]
    | some sc =>
      simp only [hsc] at hne ⊢
      simp [if_neg hraw, hne]
  · unfold validateSystemRunCommandConsistency
    cases (extractShellWrapperCommand argv none).command <;>
      simp [SystemRunCommandValidation.okB]

/-- Witness for C7: a matching rawCommand validates, a mismatching one is
rejected with the `RAW_COMMAND_MISMATCH` code. -/
theorem validateSystemRunCommand_mismatch_iff_witness :
    (validateSystemRunCommandConsistency ["ls", "-la"] (some "ls -la")).okB = true ∧
    validateSystemRunCommandConsistency ["ls", "-la"] (some "rm -rf /") =
      .invalid "INVALID_REQUEST: rawCommand does not match command" "RAW_COMMAND_MISMATCH"
        "rm -rf /" "ls -la" := by
  constructor
  · exact (validateSystemRunCommand_mismatch_iff ["ls", "-la"] "ls -la" (by decide)).1 (by decide)
  · exact ((validateSystemRunCommand_mismatch_iff ["ls", "-la"] "rm -rf /" (by decide)).2.1
      (by decide)).trans (by decide)

/-! ## Claim C8: selective safe-bins quoting -/

/-- C8: on the spec's example, exactly the `safeBins` segment is re-rendered
with every argv token single-quoted while the other segments keep their raw
text and the pipe/chain structure is preserved; and whenever the provided
segment list and satisfaction list differ in length the builder refuses. -/
theorem buildSafeBinsShellCommand_selective_quoting :
    buildSafeBinsShellCommand "rg foo src/*.ts | head -n 5 && echo ok"
      (analyzeShellCommand noResolve none "rg foo src/*.ts | head -n 5 && echo ok").segments
      [none, some SegmentSatisfier.safeBins, none] none
      = ⟨true, some "rg foo src/*.ts | 'head' '-n' '5' && echo ok", none⟩ ∧
    (∀ (command : String) (segments : List ExecCommandSegment)
        (segmentSatisfiedBy : List (Option SegmentSatisfier)) (platform : Option String),
      segments.length ≠ segmentSatisfiedBy.length →
      (buildSafeBinsShellCommand command segments segmentSatisfiedBy platform).ok = false) := by
  constructor
  · decide
  · intro command segments segmentSatisfiedBy platform hlen
    unfold buildSafeBinsShellCommand
    split
    · rfl
    · simp [hlen]

/-- Witness for C8's length-mismatch clause at a concrete input. -/
theorem buildSafeBinsShellCommand_selective_quoting_witness :
    (buildSafeBinsShellCommand "echo hi" [] [none] none).ok = false := by
  exact buildSafeBinsShellCommand_selective_quoting.2 "echo hi" [] [none] none (by decide)

/-! ## Claim C2: fail-closed analysis invariant -/

theorem splitShellPipeline_false_shape {cs : List Char}
    (h : (splitShellPipeline cs).ok = false) :
    (splitShellPipeline cs).reason.isSome = true ∧ (splitShellPipeline cs).segments = [] := by
  unfold splitShellPipeline at *
  cases hr : pipelineRun initPipeState cs <;> simp [hr] at h ⊢

theorem analyzeChainParts_error_isSome (fsResolve : String → Option String) :
    ∀ (parts : List (List Char)) (r : Option String),
    analyzeChainParts fsResolve parts = .error r → r.isSome = true := by
  intro parts
  induction parts with
  | nil => intro r h; simp [analyzeChainParts] at h
  | cons p rest ih =>
    intro r h
    unfold analyzeChainParts at h
    by_cases hok : (splitShellPipeline p).ok = false
    · simp only [hok, if_true] at h
      cases h
      exact (splitShellPipeline_false_shape hok).1
    · simp only [hok, if_false] at h
      cases hseg : parseSegmentsFromParts fsResolve (splitShellPipeline p).segments with
      | none => simp [hseg] at h; cases h; rfl
      | some segs =>
        simp only [hseg] at h
        cases hrec : analyzeChainParts fsResolve rest with
        | error r2 =>
          simp only [hrec] at h
          injection h with hh
          exact hh ▸ ih r2 hrec
        | ok pr => simp [hrec] at h

/-- C2: for every input to `analyzeShellCommand` (POSIX and Windows modes) and
`analyzeArgvCommand`, a failed analysis has an empty segment list and a set
reason — there is no partial success. -/
theorem analyzeCommand_fail_closed_invariant :
    ∀ (fsResolve : String → Option String) (platform : Option String) (command : String)
      (argv : List String),
    ((analyzeShellCommand fsResolve platform command).ok = false →
      (analyzeShellCommand fsResolve platform command).segments = [] ∧
      (analyzeShellCommand fsResolve platform command).reason.isSome = true) ∧
    ((analyzeArgvCommand fsResolve argv).ok = false →
      (analyzeArgvCommand fsResolve argv).segments = [] ∧
      (analyzeArgvCommand fsResolve argv).reason.isSome = true) := by
  intro fsResolve platform command argv
  constructor
  · intro h
    unfold analyzeShellCommand at *
    by_cases hw : isWindowsPlatform platform = true
    · simp only [hw, if_true] at h ⊢
      unfold analyzeWindowsShellCommand at *
      cases hf : findWindowsUnsupportedToken command.data with
      | some t => simp [hf]
      | none =>
        simp only [hf] at h ⊢
        cases ht : tokenizeWindowsSegment command.data with
        | none => simp [ht]
        | some argv2 =>
          cases argv2 with
          | nil => simp [ht]
          | cons a as => simp [ht] at h
    · simp only [hw, if_false] at h ⊢
      cases hc : splitCommandChainWithOperators command with
      | some parts =>
        simp only [hc] at h ⊢
        cases hcp : analyzeChainParts fsResolve (parts.map (fun p => p.part)) with
        | error r =>
          simp only [hcp]
          exact ⟨rfl, analyzeChainParts_error_isSome fsResolve _ r hcp⟩
        | ok pr => simp [hcp] at h
      | none =>
        simp only [hc] at h ⊢
        by_cases hok : (splitShellPipeline command.data).ok = false
        · simp only [hok, if_true]
          exact ⟨rfl, (splitShellPipeline_false_shape hok).1⟩
        · simp only [hok, if_false] at h ⊢
          cases hseg : parseSegmentsFromParts fsResolve (splitShellPipeline command.data).segments with
          | none => simp [hseg]
          | some segs => simp [hseg] at h
  · intro h
    simp only [analyzeArgvCommand] at h ⊢
    by_cases hf : List.filter (fun e => decide (jsTrim e ≠ "")) argv = []
    · rw [if_pos hf]
      exact ⟨rfl, rfl⟩
    · rw [if_neg hf] at h
      cases h

/-- Witness for C2 at concrete failing inputs (a rejected shell construct, a
rejected Windows token, and an all-blank argv). -/
theorem analyzeCommand_fail_closed_invariant_witness :
    ((analyzeShellCommand noResolve none "a & b").segments = [] ∧
      (analyzeShellCommand noResolve none "a & b").reason.isSome = true) ∧
    ((analyzeShellCommand noResolve (some "win32") "a ^ b").segments = [] ∧
      (analyzeShellCommand noResolve (some "win32") "a ^ b").reason.isSome = true) ∧
    ((analyzeArgvCommand noResolve [" "]).segments = [] ∧
      (analyzeArgvCommand noResolve [" "]).reason.isSome = true) := by
  refine ⟨?_, ?_, ?_⟩
  · exact (analyzeCommand_fail_closed_invariant noResolve none "a & b" []).1 (by decide)
  · exact (analyzeCommand_fail_closed_invariant noResolve (some "win32") "a ^ b" []).1 (by decide)
  · exact (analyzeCommand_fail_closed_invariant noResolve none "" [" "]).2 (by decide)

/-! ## Claim C6: env-wrapper transparency for resolution -/

theorem listStrongInd {α : Type} {P : List α → Prop}
    (ih : ∀ l : List α, (∀ m : List α, m.length < l.length → P m) → P l) :
    ∀ l : List α, P l := by
  have main : ∀ (n : Nat) (l : List α), l.length = n → P l := by
    intro n
    induction n using Nat.strong_induction_on with
    | _ n ihn =>
      intro l hl
      exact ih l (fun m hm => ihn m.length (by omega) m rfl)
  exact fun l => main l.length l rfl

theorem startsWithL_ex {pat s : List Char} (h : startsWithL pat s = true) :
    ∃ r, s = pat ++ r := by
  induction pat generalizing s with
  | nil => exact ⟨s, rfl⟩
  | cons p ps ihp =>
    cases s with
    | nil => simp [startsWithL] at h
    | cons c cs =>
      simp only [startsWithL, Bool.and_eq_true, beq_iff_eq] at h
      obtain ⟨r, hr⟩ := ihp h.2
      exact ⟨r, by simp [h.1, hr]⟩

theorem isEnvAssignment_false_of_dash {t : String} (h : startsWithS t "-" = true) :
    isEnvAssignment t = false := by
  obtain ⟨r, hr⟩ := @startsWithL_ex ("-" : String).data t.data h
  have hr2 : t.data = '-' :: r := hr
  unfold isEnvAssignment
  rw [hr2]
  show ((isAsciiLetter '-' || '-' == '_') && envAssignTail r) = false
  rw [show (isAsciiLetter '-' || '-' == '_') = false from by decide, Bool.false_and]

theorem takeUntilEq_found {pre post : List Char} (h : '=' ∉ pre) :
    takeUntilEq (pre ++ '=' :: post) = pre := by
  unfold takeUntilEq
  rw [splitAtFirst_found h]

theorem envLoopSkipAssign {t : String} (hA : isEnvAssignment (jsTrim t) = true)
    (l : List String) : unwrapEnvLoop false (t :: l) = unwrapEnvLoop false l := by
  have hne : jsTrim t ≠ "" := fun h => by rw [h] at hA; exact absurd hA (by decide)
  have hdd2 : jsTrim t ≠ "--" := fun h => by rw [h] at hA; exact absurd hA (by decide)
  have hdd1 : jsTrim t ≠ "-" := fun h => by rw [h] at hA; exact absurd hA (by decide)
  simp [unwrapEnvLoop, hne, hdd2, hdd1, hA]

theorem envLoopSkipFlagOnly {t : String} (hB : isEnvFlagOnlyToken (jsTrim t) = true)
    (l : List String) : unwrapEnvLoop false (t :: l) = unwrapEnvLoop false l := by
  have hBB := hB
  simp only [isEnvFlagOnlyToken, Bool.and_eq_true] at hBB
  obtain ⟨hdash, hmemB⟩ := hBB
  have hmem : lowerStr (jsTrim t) ∈ ENV_FLAG_OPTIONS := by simpa using hmemB
  have hne : jsTrim t ≠ "" := fun h => by rw [h] at hdash; exact absurd hdash (by decide)
  have hdd2 : jsTrim t ≠ "--" := fun h => by rw [h] at hB; exact absurd hB (by decide)
  have hdd1 : jsTrim t ≠ "-" := fun h => by rw [h] at hB; exact absurd hB (by decide)
  have hAs : isEnvAssignment (jsTrim t) = false := isEnvAssignment_false_of_dash hdash
  simp only [ENV_FLAG_OPTIONS, List.mem_cons, List.not_mem_nil, or_false] at hmem
  rcases hmem with hlow | hlow | hlow | hlow <;>
    simp [unwrapEnvLoop, hne, hdd2, hdd1, hAs, hdash, hlow, takeUntilEq, splitAtFirst,
      ENV_FLAG_OPTIONS, ENV_OPTIONS_WITH_VALUE]

theorem envLoopSkipValuePair {t v : String} (hC : isEnvValueFlagToken (jsTrim t) = true)
    (hv : jsTrim v ≠ "") (l : List String) :
    unwrapEnvLoop false (t :: v :: l) = unwrapEnvLoop false l := by
  have hCC := hC
  simp only [isEnvValueFlagToken, Bool.and_eq_true] at hCC
  obtain ⟨hdash, hmemC⟩ := hCC
  have hmem : lowerStr (jsTrim t) ∈ ENV_OPTIONS_WITH_VALUE := by simpa using hmemC
  have hne : jsTrim t ≠ "" := fun h => by rw [h] at hdash; exact absurd hdash (by decide)
  have hdd2 : jsTrim t ≠ "--" := fun h => by rw [h] at hC; exact absurd hC (by decide)
  have hdd1 : jsTrim t ≠ "-" := fun h => by rw [h] at hC; exact absurd hC (by decide)
  have hAs : isEnvAssignment (jsTrim t) = false := isEnvAssignment_false_of_dash hdash
  simp only [ENV_OPTIONS_WITH_VALUE, List.mem_cons, List.not_mem_nil, or_false] at hmem
  rcases hmem with hlow | hlow | hlow | hlow | hlow | hlow | hlow | hlow | hlow <;>
    simp [unwrapEnvLoop, hne, hdd2, hdd1, hAs, hdash, hlow, hv, takeUntilEq, splitAtFirst,
      ENV_FLAG_OPTIONS, ENV_OPTIONS_WITH_VALUE]

theorem envLoopSkipAttached {t : String} (hdash : startsWithS (jsTrim t) "-" = true)
    (hatt : isEnvAttachedValueToken (jsTrim t) = true) (l : List String) :
    unwrapEnvLoop false (t :: l) = unwrapEnvLoop false l := by
  have hne : jsTrim t ≠ "" := fun h => by rw [h] at hdash; exact absurd hdash (by decide)
  have hdd2 : jsTrim t ≠ "--" := fun h => by rw [h] at hatt; exact absurd hatt (by decide)
  have hdd1 : jsTrim t ≠ "-" := fun h => by rw [h] at hatt; exact absurd hatt (by decide)
  have hAs : isEnvAssignment (jsTrim t) = false := isEnvAssignment_false_of_dash hdash
  have hsw := hatt
  unfold isEnvAttachedValueToken at hsw
  simp only [Bool.or_eq_true] at hsw
  rcases hsw with ((((h6 | h6) | h6) | h6) | h6) | h6
  · obtain ⟨r, hr⟩ := startsWithL_ex (s := (lowerStr (jsTrim t)).data) (by simpa using h6)
    have hsplit : ("--unset=".data : List Char) ++ r = "--unset".data ++ '=' :: r := rfl
    have hflag : takeUntilEq (lowerStr (jsTrim t)).data = "--unset".data := by
      rw [hr, hsplit]; exact takeUntilEq_found (by decide)
    have hmem : ('=' : Char) ∈ (lowerStr (jsTrim t)).data := by
      rw [hr]; exact List.mem_append.mpr (Or.inl (by decide))
    simp [unwrapEnvLoop, hne, hdd2, hdd1, hAs, hdash, hflag, hmem,
      ENV_FLAG_OPTIONS, ENV_OPTIONS_WITH_VALUE]
  · obtain ⟨r, hr⟩ := startsWithL_ex (s := (lowerStr (jsTrim t)).data) (by simpa using h6)
    have hsplit : ("--chdir=".data : List Char) ++ r = "--chdir".data ++ '=' :: r := rfl
    have hflag : takeUntilEq (lowerStr (jsTrim t)).data = "--chdir".data := by
      rw [hr, hsplit]; exact takeUntilEq_found (by decide)
    have hmem : ('=' : Char) ∈ (lowerStr (jsTrim t)).data := by
      rw [hr]; exact List.mem_append.mpr (Or.inl (by decide))
    simp [unwrapEnvLoop, hne, hdd2, hdd1, hAs, hdash, hflag, hmem,
      ENV_FLAG_OPTIONS, ENV_OPTIONS_WITH_VALUE]
  · obtain ⟨r, hr⟩ := startsWithL_ex (s := (lowerStr (jsTrim t)).data) (by simpa using h6)
    have hsplit : ("--split-string=".data : List Char) ++ r = "--split-string".data ++ '=' :: r := rfl
    have hflag : takeUntilEq (lowerStr (jsTrim t)).data = "--split-string".data := by
      rw [hr, hsplit]; exact takeUntilEq_found (by decide)
    have hmem : ('=' : Char) ∈ (lowerStr (jsTrim t)).data := by
      rw [hr]; exact List.mem_append.mpr (Or.inl (by decide))
    simp [unwrapEnvLoop, hne, hdd2, hdd1, hAs, hdash, hflag, hmem,
      ENV_FLAG_OPTIONS, ENV_OPTIONS_WITH_VALUE]
  · obtain ⟨r, hr⟩ := startsWithL_ex (s := (lowerStr (jsTrim t)).data) (by simpa using h6)
    have hsplit : ("--default-signal=".data : List Char) ++ r
        = "--default-signal".data ++ '=' :: r := rfl
    have hflag : takeUntilEq (lowerStr (jsTrim t)).data = "--default-signal".data := by
      rw [hr, hsplit]; exact takeUntilEq_found (by decide)
    have hmem : ('=' : Char) ∈ (lowerStr (jsTrim t)).data := by
      rw [hr]; exact List.mem_append.mpr (Or.inl (by decide))
    simp [unwrapEnvLoop, hne, hdd2, hdd1, hAs, hdash, hflag, hmem,
      ENV_FLAG_OPTIONS, ENV_OPTIONS_WITH_VALUE]
  · obtain ⟨r, hr⟩ := startsWithL_ex (s := (lowerStr (jsTrim t)).data) (by simpa using h6)
    have hsplit : ("--ignore-signal=".data : List Char) ++ r
        = "--ignore-signal".data ++ '=' :: r := rfl
    have hflag : takeUntilEq (lowerStr (jsTrim t)).data = "--ignore-signal".data := by
      rw [hr, hsplit]; exact takeUntilEq_found (by decide)
    have hmem : ('=' : Char) ∈ (lowerStr (jsTrim t)).data := by
      rw [hr]; exact List.mem_append.mpr (Or.inl (by decide))
    simp [unwrapEnvLoop, hne, hdd2, hdd1, hAs, hdash, hflag, hmem,
      ENV_FLAG_OPTIONS, ENV_OPTIONS_WITH_VALUE]
  · obtain ⟨r, hr⟩ := startsWithL_ex (s := (lowerStr (jsTrim t)).data) (by simpa using h6)
    have hsplit : ("--block-signal=".data : List Char) ++ r
        = "--block-signal".data ++ '=' :: r := rfl
    have hflag : takeUntilEq (lowerStr (jsTrim t)).data = "--block-signal".data := by
      rw [hr, hsplit]; exact takeUntilEq_found (by decide)
    have hmem : ('=' : Char) ∈ (lowerStr (jsTrim t)).data := by
      rw [hr]; exact List.mem_append.mpr (Or.inl (by decide))
    simp [unwrapEnvLoop, hne, hdd2, hdd1, hAs, hdash, hflag, hmem,
      ENV_FLAG_OPTIONS, ENV_OPTIONS_WITH_VALUE]

/-- Consuming a recognized env-prefix token run preserves the rest of the scan
(`expectsOptionValue` is false before and after each token group). -/
theorem unwrapEnvLoop_skipsRecognized :
    ∀ pre : List String, envPrefixOk pre = true →
    ∀ tail : List String, unwrapEnvLoop false (pre ++ tail) = unwrapEnvLoop false tail := by
  refine listStrongInd (P := fun pre => envPrefixOk pre = true →
    ∀ tail, unwrapEnvLoop false (pre ++ tail) = unwrapEnvLoop false tail) ?_
  intro pre ihm hok tail
  cases pre with
  | nil => simp
  | cons t rest =>
    by_cases hA : isEnvAssignment (jsTrim t) = true
    · have hok2 : envPrefixOk rest = true := by
        cases rest with
        | nil => rfl
        | cons a b => simpa [envPrefixOk, hA] using hok
      rw [List.cons_append, envLoopSkipAssign hA]
      exact ihm rest (by simp) hok2 tail
    · have hA' : isEnvAssignment (jsTrim t) = false := by simpa using hA
      by_cases hB : isEnvFlagOnlyToken (jsTrim t) = true
      · have hok2 : envPrefixOk rest = true := by
          cases rest with
          | nil => rfl
          | cons a b => simpa [envPrefixOk, hA', hB] using hok
        rw [List.cons_append, envLoopSkipFlagOnly hB]
        exact ihm rest (by simp) hok2 tail
      · have hB' : isEnvFlagOnlyToken (jsTrim t) = false := by simpa using hB
        by_cases hC : isEnvValueFlagToken (jsTrim t) = true
        · cases rest with
          | nil => exact absurd hok (by simp [envPrefixOk, hA', hB', hC])
          | cons v rest2 =>
            have hok2 : jsTrim v ≠ "" ∧ envPrefixOk rest2 = true := by
              simpa [envPrefixOk, hA', hB', hC] using hok
            rw [List.cons_append, List.cons_append, envLoopSkipValuePair hC hok2.1]
            exact ihm rest2 (by simp; omega) hok2.2 tail
        · have hC' : isEnvValueFlagToken (jsTrim t) = false := by simpa using hC
          by_cases hD : (startsWithS (jsTrim t) "-" && isEnvAttachedValueToken (jsTrim t)) = true
          · have hok2 : envPrefixOk rest = true := by
              cases rest with
              | nil => rfl
              | cons a b => simpa [envPrefixOk, hA', hB', hC', hD] using hok
            have hDD := hD
            simp only [Bool.and_eq_true] at hDD
            obtain ⟨hdash, hatt⟩ := hDD
            rw [List.cons_append, envLoopSkipAttached hdash hatt]
            exact ihm rest (by simp) hok2 tail
          · have hD' : (startsWithS (jsTrim t) "-" && isEnvAttachedValueToken (jsTrim t)) = false := by
              simpa using hD
            exact absurd hok (by cases rest <;> simp [envPrefixOk, hA', hB', hC', hD'])

theorem unwrapEnvLoop_inner {x : String} (rest : List String)
    (hxne : jsTrim x ≠ "") (hxdash : startsWithS (jsTrim x) "-" = false)
    (hxassign : isEnvAssignment (jsTrim x) = false) :
    unwrapEnvLoop false (x :: rest) = some (x :: rest) := by
  have hdd2 : jsTrim x ≠ "--" := fun h => by rw [h] at hxdash; exact absurd hxdash (by decide)
  have hdd1 : jsTrim x ≠ "-" := fun h => by rw [h] at hxdash; exact absurd hxdash (by decide)
  simp [unwrapEnvLoop, hxne, hdd2, hdd1, hxassign, hxdash]

theorem unwrapDispatchAux_stop {x : String} (rest : List String)
    (hxenv : basenameLower (jsTrim x) ≠ "env") :
    ∀ d : Nat, unwrapDispatchAux d (x :: rest) = x :: rest := by
  intro d
  cases d with
  | zero => rfl
  | succ d2 =>
    by_cases hxe : jsTrim x = ""
    · simp [unwrapDispatchAux, hxe]
    · simp [unwrapDispatchAux, hxe, hxenv]

theorem unwrapDispatchAux_env_step {cur inner : List String} (d : Nat)
    (h0ne : jsTrim (cur.head?.getD "") ≠ "")
    (he0 : basenameLower (jsTrim (cur.head?.getD "")) = "env")
    (hinner : unwrapEnvInvocation cur = some inner) (hne : inner ≠ []) :
    unwrapDispatchAux (d + 1) cur = unwrapDispatchAux d inner := by
  cases inner with
  | nil => exact absurd rfl hne
  | cons u us => simp [unwrapDispatchAux, h0ne, he0, hinner]

/-- C6 amended: for every filesystem oracle and every argv of the shape
`env-token :: prefix ++ inner-command :: args` — where the first token's
basename is `env`, the prefix is a recognized run of `VAR=value` assignments
and env flags (§4.3), and the inner-command token is non-blank, not an option,
not an assignment, and not itself named `env` — resolution of the wrapped argv
equals resolution of the inner argv directly. -/
theorem resolveFromArgv_env_unwrap_eq :
    ∀ (fsResolve : String → Option String) (e0 : String) (pre : List String)
      (x : String) (rest : List String),
    basenameLower (jsTrim e0) = "env" →
    envPrefixOk pre = true →
    jsTrim x ≠ "" →
    startsWithS (jsTrim x) "-" = false →
    isEnvAssignment (jsTrim x) = false →
    basenameLower (jsTrim x) ≠ "env" →
    resolveCommandResolutionFromArgv fsResolve (e0 :: (pre ++ x :: rest)) =
      resolveCommandResolutionFromArgv fsResolve (x :: rest) := by
  intro fsResolve e0 pre x rest he0 hpre hxne hxdash hxassign hxenv
  have h0ne : jsTrim e0 ≠ "" := by
    intro h
    rw [h] at he0
    exact absurd he0 (by decide)
  have hinner : unwrapEnvInvocation (e0 :: (pre ++ x :: rest)) = some (x :: rest) := by
    show unwrapEnvLoop false (pre ++ x :: rest) = some (x :: rest)
    rw [unwrapEnvLoop_skipsRecognized pre hpre (x :: rest)]
    exact unwrapEnvLoop_inner rest hxne hxdash hxassign
  have heff : unwrapDispatchWrappersForResolution (e0 :: (pre ++ x :: rest)) = x :: rest := by
    show unwrapDispatchAux (3 + 1) (e0 :: (pre ++ x :: rest)) = x :: rest
    rw [unwrapDispatchAux_env_step 3 (by simpa using h0ne) (by simpa using he0) hinner
      (by simp)]
    exact unwrapDispatchAux_stop rest hxenv 3
  have heff2 : unwrapDispatchWrappersForResolution (x :: rest) = x :: rest :=
    unwrapDispatchAux_stop rest hxenv MAX_DISPATCH_WRAPPER_DEPTH
  unfold resolveCommandResolutionFromArgv
  rw [heff, heff2]

/-- C6 counterexample: an `env` argv whose inner command is itself wrapped in
four more `env` invocations.  The claim's premise holds (first basename `env`,
empty assignment/flag prefix, then the inner command), but the depth-capped
unwrapping stops after `MAX_DISPATCH_WRAPPER_DEPTH = 4` rounds, so the wrapped
argv resolves to `env` while the inner argv resolves to `rg`. -/
theorem resolveFromArgv_env_depth_cx :
    basenameLower (jsTrim "env") = "env" ∧
    envPrefixOk ([] : List String) = true ∧
    resolveCommandResolutionFromArgv rgOnly ["env", "env", "env", "env", "env", "rg"]
      = some ⟨"env", none, "env"⟩ ∧
    resolveCommandResolutionFromArgv rgOnly ["env", "env", "env", "env", "rg"]
      = some ⟨"rg", some "/usr/bin/rg", "rg"⟩ ∧
    resolveCommandResolutionFromArgv rgOnly ["env", "env", "env", "env", "env", "rg"]
      ≠ resolveCommandResolutionFromArgv rgOnly ["env", "env", "env", "env", "rg"] := by
  refine ⟨by decide, by decide, by decide, by decide, by decide⟩

/-- Witness for C6 at the spec's concrete example. -/
theorem resolveFromArgv_env_unwrap_eq_witness :
    resolveCommandResolutionFromArgv rgOnly ["/usr/bin/env", "FOO=bar", "rg", "-n", "x"]
      = resolveCommandResolutionFromArgv rgOnly ["rg", "-n", "x"] ∧
    resolveCommandResolutionFromArgv rgOnly ["rg", "-n", "x"]
      = some ⟨"rg", some "/usr/bin/rg", "rg"⟩ := by
  constructor
  · exact resolveFromArgv_env_unwrap_eq rgOnly "/usr/bin/env" ["FOO=bar"] "rg" ["-n", "x"]
      (by decide) (by decide) (by decide) (by decide) (by decide) (by decide)
  · decide

/-! ## Stepping lemmas for the pipeline scanner -/

theorem heredocSkipSpaces_append (cs : List Char) :
    (heredocSkipSpaces cs).1 ++ (heredocSkipSpaces cs).2 = cs := by
  induction cs with
  | nil => rfl
  | cons c rest ih =>
    by_cases h : (c == ' ' || c == '\t') = true
    · simp [heredocSkipSpaces, h, ih]
    · simp [heredocSkipSpaces, h]

theorem heredocBare_append (cs : List Char) :
    (heredocBare cs).1 ++ (heredocBare cs).2 = cs := by
  induction cs with
  | nil => rfl
  | cons c rest ih =>
    by_cases h : (isSpaceJS c || c == '|' || c == '&' || c == ';' || c == '<' || c == '>') = true
    · simp [heredocBare, h]
    · simp [heredocBare, h, ih]

theorem heredocQuoted_append (q : Char) :
    ∀ cs d p r, heredocQuoted q cs = some (d, p, r) → p ++ r = cs := by
  refine listStrongInd
    (P := fun cs => ∀ d p r, heredocQuoted q cs = some (d, p, r) → p ++ r = cs) ?_
  intro cs ihm d p r h
  cases cs with
  | nil => simp [heredocQuoted] at h
  | cons c rest =>
    unfold heredocQuoted at h
    by_cases hnl : (c == '\n' || c == '\r') = true
    · rw [if_pos hnl] at h; cases h
    · rw [if_neg hnl] at h
      by_cases hesc : (q == '"' && c == '\\' && decide (rest ≠ [])) = true
      · rw [if_pos hesc] at h
        cases rest with
        | nil => simp at hesc
        | cons n rest2 =>
          cases hrec : heredocQuoted q rest2 with
          | none => simp [hrec] at h
          | some trip =>
            obtain ⟨d2, p2, r2⟩ := trip
            simp only [hrec, Option.some.injEq, Prod.mk.injEq] at h
            obtain ⟨hd, hp, hr⟩ := h
            subst hp
            subst hr
            have hrec2 := ihm rest2 (by simp; omega) d2 p2 r2 hrec
            simp [hrec2]
      · rw [if_neg hesc] at h
        by_cases hq : (c == q) = true
        · rw [if_pos hq] at h
          simp only [Option.some.injEq, Prod.mk.injEq] at h
          obtain ⟨hd, hp, hr⟩ := h
          subst hp
          subst hr
          rfl
        · rw [if_neg hq] at h
          cases hrec : heredocQuoted q rest with
          | none => simp [hrec] at h
          | some trip =>
            obtain ⟨d2, p2, r2⟩ := trip
            simp only [hrec, Option.some.injEq, Prod.mk.injEq] at h
            obtain ⟨hd, hp, hr⟩ := h
            subst hp
            subst hr
            have hrec2 := ihm rest (by simp) d2 p2 r2 hrec
            simp [hrec2]

theorem parseHeredocDelimiter_append {src d consumed rest : List Char} {q : Bool}
    (h : parseHeredocDelimiter src = some (d, consumed, rest, q)) :
    consumed ++ rest = src := by
  unfold parseHeredocDelimiter at h
  cases hsp : (heredocSkipSpaces src).2 with
  | nil => rw [hsp] at h; cases h
  | cons c cs =>
    rw [hsp] at h
    by_cases hqc : (c == '\'' || c == '"') = true
    · simp only [hqc, if_true] at h
      cases hq2 : heredocQuoted c cs with
      | none => simp [hq2] at h
      | some trip =>
        obtain ⟨d2, p2, r2⟩ := trip
        simp only [hq2, Option.some.injEq, Prod.mk.injEq] at h
        obtain ⟨hd, hc, hr, hqq⟩ := h
        subst hc
        subst hr
        have hqa := heredocQuoted_append c cs d2 p2 r2 hq2
        calc ((heredocSkipSpaces src).1 ++ c :: p2) ++ r2
            = (heredocSkipSpaces src).1 ++ c :: (p2 ++ r2) := by simp
          _ = (heredocSkipSpaces src).1 ++ (c :: cs) := by rw [hqa]
          _ = (heredocSkipSpaces src).1 ++ (heredocSkipSpaces src).2 := by rw [hsp]
          _ = src := heredocSkipSpaces_append src
    · rw [Bool.not_eq_true] at hqc
      simp only [hqc, Bool.false_eq_true, if_false] at h
      by_cases hb : (heredocBare (c :: cs)).1 = []
      · simp [hb] at h
      · simp only [hb, if_false, Option.some.injEq, Prod.mk.injEq] at h
        obtain ⟨hd, hc, hr, hqq⟩ := h
        subst hc
        subst hr
        calc ((heredocSkipSpaces src).1 ++ (heredocBare (c :: cs)).1) ++ (heredocBare (c :: cs)).2
            = (heredocSkipSpaces src).1 ++
                ((heredocBare (c :: cs)).1 ++ (heredocBare (c :: cs)).2) := by simp
          _ = (heredocSkipSpaces src).1 ++ (c :: cs) := by rw [heredocBare_append]
          _ = (heredocSkipSpaces src).1 ++ (heredocSkipSpaces src).2 := by rw [hsp]
          _ = src := heredocSkipSpaces_append src

theorem pipelineLoopF_step_ok {st : PipeState} {c : Char} {rest : List Char} {st2 : PipeState}
    {rest2 : List Char} (fuel : Nat) (h : pipeStep st c rest = .ok (st2, rest2)) :
    pipelineLoopF (fuel + 1) st (c :: rest) = pipelineLoopF fuel st2 rest2 := by
  simp [pipelineLoopF, h]

theorem pipelineLoopF_step_err {st : PipeState} {c : Char} {rest : List Char} {e : String}
    (fuel : Nat) (h : pipeStep st c rest = .error e) :
    pipelineLoopF (fuel + 1) st (c :: rest) = .error e := by
  simp [pipelineLoopF, h]

/-- A character with no role in the pipeline grammar, scanned in the neutral
state, is appended to the buffer. -/
theorem pipeStep_plain {st : PipeState} {c : Char} (rest : List Char)
    (hc : c ∉ (['\\', '\'', '"', '\n', '\r', '|', '&', ';', '<', '>', '`', '(', ')', '$'] :
      List Char))
    (h1 : st.inBody = false) (h2 : st.escaped = false) (h3 : st.inSingle = false)
    (h4 : st.inDouble = false) :
    pipeStep st c rest = .ok ({ st with buf := st.buf ++ [c], emptySegment := false }, rest) := by
  simp only [List.mem_cons, List.not_mem_nil, or_false, not_or] at hc
  obtain ⟨e1, e2, e3, e4, e5, e6, e7, e8, e9, e10, e11, e12, e13, e14⟩ := hc
  simp [pipeStep, DISALLOWED_PIPELINE_TOKENS, h1, h2, h3, h4,
    e1, e2, e3, e4, e5, e6, e7, e8, e9, e10, e11, e12, e13, e14]

/-- Scanning a run of grammar-neutral characters in the neutral state appends
them to the buffer (one unit of fuel per character). -/
theorem pipelineLoopF_plain_run :
    ∀ (p : List Char), (∀ c ∈ p,
      c ∉ (['\\', '\'', '"', '\n', '\r', '|', '&', ';', '<', '>', '`', '(', ')', '$'] :
        List Char)) →
    ∀ (fuel : Nat) (st : PipeState) (rest : List Char),
    st.inBody = false → st.escaped = false → st.inSingle = false → st.inDouble = false →
    st.emptySegment = false →
    pipelineLoopF (p.length + fuel) st (p ++ rest) =
      pipelineLoopF fuel { st with buf := st.buf ++ p, emptySegment := false } rest := by
  intro p
  induction p with
  | nil =>
    intro _ fuel st rest _ _ _ _ h5
    have hrec : ({ st with emptySegment := false } : PipeState) = st := by
      rw [← h5]
    simp [hrec]
  | cons c p2 ih =>
    intro hp fuel st rest h1 h2 h3 h4 h5
    have hc := hp c (by simp)
    have hstep := pipeStep_plain (p2 ++ rest) hc h1 h2 h3 h4
    have hlen : (c :: p2).length + fuel = (p2.length + fuel) + 1 := by simp; omega
    rw [hlen, List.cons_append, pipelineLoopF_step_ok (p2.length + fuel) hstep]
    rw [ih (fun x hx => hp x (by simp [hx])) fuel _ rest (by simp [h1]) (by simp [h2])
      (by simp [h3]) (by simp [h4]) (by simp)]
    simp

/-- A heredoc body character other than a line terminator accumulates into the
current body line. -/
theorem pipeStep_body {st : PipeState} {c : Char} (rest : List Char)
    (h1 : st.inBody = true) (hc1 : c ≠ '\n') (hc2 : c ≠ '\r') :
    pipeStep st c rest = .ok ({ st with hline := st.hline ++ [c] }, rest) := by
  simp [pipeStep, h1, hc1, hc2]

/-- Scanning a newline-free run inside a heredoc body accumulates it into the
current body line. -/
theorem pipelineLoopF_body_run :
    ∀ (l : List Char), (∀ c ∈ l, c ≠ '\n' ∧ c ≠ '\r') →
    ∀ (fuel : Nat) (st : PipeState) (rest : List Char), st.inBody = true →
    pipelineLoopF (l.length + fuel) st (l ++ rest) =
      pipelineLoopF fuel { st with hline := st.hline ++ l } rest := by
  intro l
  induction l with
  | nil =>
    intro _ fuel st rest _
    simp
  | cons c l2 ih =>
    intro hl fuel st rest h1
    have hc := hl c (by simp)
    have hstep := @pipeStep_body st c (l2 ++ rest) h1 hc.1 hc.2
    have hlen : (c :: l2).length + fuel = (l2.length + fuel) + 1 := by simp; omega
    rw [hlen, List.cons_append, pipelineLoopF_step_ok (l2.length + fuel) hstep]
    rw [ih (fun x hx => hl x (by simp [hx])) fuel _ rest (by simp [h1])]
    simp

/-- A step on a character that is not `;`, `&` or `|` cannot record a chain
operator, and consumes input only from the remaining list. -/
theorem chainStep_no_op {st : ChainState} {c : Char} {rest : List Char}
    (hc1 : c ≠ ';') (hc2 : c ≠ '&') (hc3 : c ≠ '|') :
    (chainStep st c rest).1.foundChain = st.foundChain ∧
    ((chainStep st c rest).2 = rest ∨ (chainStep st c rest).2 = rest.tail) := by
  by_cases h1 : st.escaped = true
  · simp [chainStep, h1]
  · by_cases h2 : (¬ st.inSingle ∧ ¬ st.inDouble ∧ c = '\\')
    · simp [chainStep, h1, h2]
    · by_cases h3 : st.inSingle = true
      · simp [chainStep, h1, h2, h3]
      · by_cases h4 : st.inDouble = true
        · by_cases h5 : (c = '\\' ∧ (match rest.head? with
              | some n => decide (n ∈ DOUBLE_QUOTE_ESCAPES)
              | none => false) = true)
          · simp [chainStep, h1, h2, h3, h4, h5]
          · simp [chainStep, h1, h2, h3, h4, h5]
        · by_cases h6 : c = '\''
          · simp [chainStep, h1, h2, h3, h4, h6]
          · by_cases h7 : c = '"'
            · simp [chainStep, h1, h2, h3, h4, h6, h7]
            · simp [chainStep, h1, h2, h3, h4, h6, h7, hc1, hc2, hc3]
              refine ⟨?_, ?_⟩ <;> split <;> simp

/-- Without any of `;`, `&`, `|` in the input, the chain scanner never finds a
chain and returns `none`. -/
theorem chainLoopF_no_ops :
    ∀ (fuel : Nat) (st : ChainState) (cs : List Char),
    (∀ c ∈ cs, c ≠ ';' ∧ c ≠ '&' ∧ c ≠ '|') → st.foundChain = false →
    chainLoopF fuel st cs = none := by
  intro fuel
  induction fuel with
  | zero =>
    intro st cs hcs hf
    cases cs with
    | nil => simp [chainLoopF, chainFinish, hf]
    | cons c rest => rfl
  | succ fuel2 ih =>
    intro st cs hcs hf
    cases cs with
    | nil => simp [chainLoopF, chainFinish, hf]
    | cons c rest =>
      have hc := hcs c (by simp)
      obtain ⟨hfound, hrest⟩ := @chainStep_no_op st c rest hc.1 hc.2.1 hc.2.2
      show chainLoopF fuel2 (chainStep st c rest).1 (chainStep st c rest).2 = none
      apply ih
      · intro x hx
        rcases hrest with hr | hr
        · rw [hr] at hx
          exact hcs x (by simp [hx])
        · rw [hr] at hx
          exact hcs x (by simp [List.mem_of_mem_tail hx])
      · rw [hfound, hf]

/-! ## Claim C3: heredoc body handling -/

/-- Scanning `/usr/bin/tee /tmp/f << EOF` followed by a newline-free body line
that contains an unescaped expansion token ends in the heredoc rejection. -/
theorem heredocBodyRejectPipeline (l : List Char)
    (hln : ∀ c ∈ l, c ≠ '\n' ∧ c ≠ '\r')
    (htok : hasUnquotedHeredocExpansionToken l = true) :
    pipelineRun initPipeState ("/usr/bin/tee /tmp/f << EOF\n".data ++ l ++ "\nEOF".data)
      = .error "command substitution in unquoted heredoc" := by
  have hne : l ≠ ['E', 'O', 'F'] := fun h => by rw [h] at htok; exact absurd htok (by decide)
  unfold pipelineRun
  have h27 : ("/usr/bin/tee /tmp/f << EOF\n".data : List Char).length = 27 := rfl
  have h20 : ("/usr/bin/tee /tmp/f ".data : List Char).length = 20 := rfl
  have h4 : ("\nEOF".data : List Char).length = 4 := rfl
  have hlen : ("/usr/bin/tee /tmp/f << EOF\n".data ++ l ++ "\nEOF".data).length + 1
      = ("/usr/bin/tee /tmp/f ".data).length + (l.length + 12) := by
    simp only [List.length_append, h27, h20, h4]
    omega
  rw [hlen]
  rw [show ("/usr/bin/tee /tmp/f << EOF\n".data ++ l ++ "\nEOF".data : List Char)
      = "/usr/bin/tee /tmp/f ".data ++
        ('<' :: '<' :: ' ' :: 'E' :: 'O' :: 'F' :: '\n' :: (l ++ "\nEOF".data)) from rfl]
  rw [pipelineLoopF_plain_run "/usr/bin/tee /tmp/f ".data (by decide) (l.length + 12)
    initPipeState ('<' :: '<' :: ' ' :: 'E' :: 'O' :: 'F' :: '\n' :: (l ++ "\nEOF".data))
    rfl rfl rfl rfl rfl]
  show pipelineLoopF (l.length + 12)
    ⟨"/usr/bin/tee /tmp/f ".data, [], false, false, false, false, [], false, []⟩
    ('<' :: '<' :: ' ' :: 'E' :: 'O' :: 'F' :: '\n' :: (l ++ "\nEOF".data))
    = .error "command substitution in unquoted heredoc"
  have hB : pipeStep
      ⟨"/usr/bin/tee /tmp/f ".data, [], false, false, false, false, [], false, []⟩
      '<' ('<' :: ' ' :: 'E' :: 'O' :: 'F' :: '\n' :: (l ++ "\nEOF".data))
      = .ok (⟨"/usr/bin/tee /tmp/f << EOF".data, [], false, false, false, false,
          [⟨['E', 'O', 'F'], false, false⟩], false, []⟩, '\n' :: (l ++ "\nEOF".data)) := by
    simp [pipeStep, parseHeredocDelimiter, heredocSkipSpaces, heredocBare, isSpaceJS]
  rw [show l.length + 12 = (l.length + 11) + 1 from by omega,
    pipelineLoopF_step_ok (l.length + 11) hB]
  have hC : pipeStep
      ⟨"/usr/bin/tee /tmp/f << EOF".data, [], false, false, false, false,
        [⟨['E', 'O', 'F'], false, false⟩], false, []⟩
      '\n' (l ++ "\nEOF".data)
      = .ok (⟨"/usr/bin/tee /tmp/f << EOF".data, [], false, false, false, false,
          [⟨['E', 'O', 'F'], false, false⟩], true, []⟩, l ++ "\nEOF".data) := by
    simp [pipeStep]
  rw [show l.length + 11 = (l.length + 10) + 1 from by omega,
    pipelineLoopF_step_ok (l.length + 10) hC]
  rw [pipelineLoopF_body_run l hln 10
    ⟨"/usr/bin/tee /tmp/f << EOF".data, [], false, false, false, false,
      [⟨['E', 'O', 'F'], false, false⟩], true, []⟩ "\nEOF".data rfl]
  show pipelineLoopF 10
    ⟨"/usr/bin/tee /tmp/f << EOF".data, [], false, false, false, false,
      [⟨['E', 'O', 'F'], false, false⟩], true, l⟩ ('\n' :: "EOF".data)
    = .error "command substitution in unquoted heredoc"
  have hE : pipeStep
      ⟨"/usr/bin/tee /tmp/f << EOF".data, [], false, false, false, false,
        [⟨['E', 'O', 'F'], false, false⟩], true, l⟩
      '\n' "EOF".data
      = .error "command substitution in unquoted heredoc" := by
    simp [pipeStep, hne, htok]
  rw [show (10 : Nat) = 9 + 1 from rfl, pipelineLoopF_step_err 9 hE]

/-- Without any of `;`, `&`, `|` in the command, `splitCommandChainWithOperators`
returns `none`. -/
theorem splitCommandChain_none_of_no_ops (cmd : String)
    (h : ∀ c ∈ cmd.data, c ≠ ';' ∧ c ≠ '&' ∧ c ≠ '|') :
    splitCommandChainWithOperators cmd = none := by
  unfold splitCommandChainWithOperators chainRun
  exact chainLoopF_no_ops _ initChainState cmd.data h rfl

/-- C3 counterexample: the unquoted-delimiter heredoc whose body line `$(id);x`
contains an unescaped `$(` is rejected, but with reason "unterminated heredoc"
rather than the claimed "command substitution in unquoted heredoc", because the
chain splitter runs first and cuts the command at the `;` inside the heredoc
body. -/
theorem heredoc_unquoted_reason_cx :
    (analyzeShellCommand noResolve none "/usr/bin/tee /tmp/f << EOF\n$(id);x\nEOF").ok
      = false ∧
    (analyzeShellCommand noResolve none "/usr/bin/tee /tmp/f << EOF\n$(id);x\nEOF").reason
      = some "unterminated heredoc" ∧
    hasUnquotedHeredocExpansionToken "$(id);x".data = true := by
  refine ⟨by decide, by decide, by decide⟩

/-- C3 (amended): for every heredoc body line free of newlines and chain
operators, an unquoted delimiter plus an unescaped backtick, `$(` or `$\x7b` in
the body is rejected with exactly the reason "command substitution in unquoted
heredoc"; the quoted-delimiter variant with body `$(id)` is accepted with its
segment intact and no expansion scan. -/
theorem heredoc_quoted_literal_unquoted_rejected :
    (∀ (fsResolve : String → Option String) (l : List Char),
      (∀ c ∈ l, c ≠ '\n' ∧ c ≠ '\r' ∧ c ≠ ';' ∧ c ≠ '&' ∧ c ≠ '|') →
      hasUnquotedHeredocExpansionToken l = true →
      analyzeShellCommand fsResolve none
          (String.mk ("/usr/bin/tee /tmp/f << EOF\n".data ++ l ++ "\nEOF".data))
        = ⟨false, some "command substitution in unquoted heredoc", [], none⟩) ∧
    (analyzeShellCommand noResolve none "/usr/bin/tee /tmp/f << 'EOF'\n$(id)\nEOF").ok
      = true ∧
    (analyzeShellCommand noResolve none "/usr/bin/tee /tmp/f << 'EOF'\n$(id)\nEOF").reason
      = none ∧
    (analyzeShellCommand noResolve none
        "/usr/bin/tee /tmp/f << 'EOF'\n$(id)\nEOF").segments.map (fun s => s.raw)
      = ["/usr/bin/tee /tmp/f << 'EOF'"] := by
  refine ⟨?_, by decide, by decide, by decide⟩
  intro fsResolve l hl htok
  have hln : ∀ c ∈ l, c ≠ '\n' ∧ c ≠ '\r' := fun c hc => ⟨(hl c hc).1, (hl c hc).2.1⟩
  have hpipe : splitShellPipeline ("/usr/bin/tee /tmp/f << EOF\n".data ++ l ++ "\nEOF".data)
      = ⟨false, some "command substitution in unquoted heredoc", []⟩ := by
    unfold splitShellPipeline
    rw [heredocBodyRejectPipeline l hln htok]
  have hfix1 : ∀ c ∈ ("/usr/bin/tee /tmp/f << EOF\n".data : List Char),
      c ≠ ';' ∧ c ≠ '&' ∧ c ≠ '|' := by decide
  have hfix2 : ∀ c ∈ ("\nEOF".data : List Char), c ≠ ';' ∧ c ≠ '&' ∧ c ≠ '|' := by decide
  have hdata : (String.mk ("/usr/bin/tee /tmp/f << EOF\n".data ++ l ++ "\nEOF".data)).data
      = "/usr/bin/tee /tmp/f << EOF\n".data ++ l ++ "\nEOF".data := rfl
  have hchain : splitCommandChainWithOperators
      (String.mk ("/usr/bin/tee /tmp/f << EOF\n".data ++ l ++ "\nEOF".data)) = none := by
    apply splitCommandChain_none_of_no_ops
    intro c hc
    rw [hdata] at hc
    rcases List.mem_append.mp hc with hc1 | hc1
    · rcases List.mem_append.mp hc1 with hc2 | hc2
      · exact hfix1 c hc2
      · exact ⟨(hl c hc2).2.2.1, (hl c hc2).2.2.2.1, (hl c hc2).2.2.2.2⟩
    · exact hfix2 c hc1
  unfold analyzeShellCommand
  rw [if_neg (by decide), hchain, hdata, hpipe]
  rfl

/-- Witness for C3 at the body line `$(id)`. -/
theorem heredoc_quoted_literal_unquoted_rejected_witness :
    analyzeShellCommand noResolve none
        (String.mk ("/usr/bin/tee /tmp/f << EOF\n".data ++ "$(id)".data ++ "\nEOF".data))
      = ⟨false, some "command substitution in unquoted heredoc", [], none⟩ :=
  heredoc_quoted_literal_unquoted_rejected.1 noResolve "$(id)".data (by decide) (by decide)

/-! ## Reference-scanner algebra (claim C1) -/

theorem refStateRun_cons (st : RefScanState) (c : Char) (cs : List Char) :
    refStateRun st (c :: cs) = refStateRun (refStep st c) cs := by
  simp [refStateRun]

theorem refScan_append (xs ys : List Char) :
    ∀ st : RefScanState,
    refScan st (xs ++ ys) = (refScan st xs || refScan (refStateRun st xs) ys) := by
  induction xs with
  | nil => intro st; simp [refScan, refStateRun]
  | cons c xs ih =>
    intro st
    simp only [List.cons_append, refScan, refStateRun_cons, List.append_eq,
      ih (refStep st c), Bool.or_assoc]

theorem refScan_snoc (xs : List Char) (c : Char) (st : RefScanState) :
    refScan st (xs ++ [c]) = (refScan st xs || refHit (refStateRun st xs) c) := by
  rw [refScan_append]
  simp [refScan]

theorem refHit_space {st : RefScanState} {c : Char} (h : isSpaceJS c = true) :
    refHit st c = false := by
  simp only [isSpaceJS, Bool.or_eq_true, beq_iff_eq] at h
  rcases h with ((((rfl | rfl) | rfl) | rfl) | rfl) | rfl <;> simp [refHit]

theorem refScan_space {ws : List Char} (h : ∀ c ∈ ws, isSpaceJS c = true) :
    ∀ st : RefScanState, refScan st ws = false := by
  induction ws with
  | nil => intro st; rfl
  | cons c ws ih =>
    intro st
    simp only [refScan, Bool.or_eq_false_iff]
    exact ⟨refHit_space (h c (by simp)), ih (fun x hx => h x (by simp [hx])) _⟩

theorem refStateRun_space {ws : List Char} (h : ∀ c ∈ ws, isSpaceJS c = true) :
    refStateRun refState0 ws = refState0 := by
  induction ws with
  | nil => rfl
  | cons c ws ih =>
    have hc := h c (by simp)
    have hstep : refStep refState0 c = refState0 := by
      simp only [isSpaceJS, Bool.or_eq_true, beq_iff_eq] at hc
      rcases hc with ((((rfl | rfl) | rfl) | rfl) | rfl) | rfl <;> rfl
    rw [refStateRun_cons, hstep, ih (fun x hx => h x (by simp [hx]))]

theorem refScan_trim (xs : List Char) :
    refScan refState0 (trimChars xs) = refScan refState0 xs := by
  have h1 : xs = xs.takeWhile isSpaceJS ++ xs.dropWhile isSpaceJS :=
    (List.takeWhile_append_dropWhile isSpaceJS xs).symm
  have hws1 : ∀ c ∈ xs.takeWhile isSpaceJS, isSpaceJS c = true :=
    fun c hc => List.mem_takeWhile_imp hc
  have h2 : refScan refState0 xs = refScan refState0 (xs.dropWhile isSpaceJS) := by
    conv_lhs => rw [h1]
    rw [refScan_append, refScan_space hws1, refStateRun_space hws1, Bool.false_or]
  set as := xs.dropWhile isSpaceJS with has
  have h3 : as = ((as.reverse.dropWhile isSpaceJS).reverse) ++
      (as.reverse.takeWhile isSpaceJS).reverse := by
    conv_lhs => rw [← List.reverse_reverse as]
    rw [← List.reverse_append]
    conv_lhs => rw [show as.reverse = as.reverse.takeWhile isSpaceJS ++
      as.reverse.dropWhile isSpaceJS from (List.takeWhile_append_dropWhile isSpaceJS as.reverse).symm]
  have hws2 : ∀ c ∈ (as.reverse.takeWhile isSpaceJS).reverse, isSpaceJS c = true :=
    fun c hc => List.mem_takeWhile_imp (List.mem_reverse.mp hc)
  have h4 : refScan refState0 as
      = refScan refState0 ((as.reverse.dropWhile isSpaceJS).reverse) := by
    conv_lhs => rw [h3]
    rw [refScan_append, refScan_space hws2, Bool.or_false]
  rw [h2, h4]
  rfl

theorem trimChars_subset {c : Char} {xs : List Char} (h : c ∈ trimChars xs) : c ∈ xs := by
  unfold trimChars at h
  rw [List.mem_reverse] at h
  have h2 := List.Sublist.mem h (List.dropWhile_sublist isSpaceJS)
  rw [List.mem_reverse] at h2
  exact List.Sublist.mem h2 (List.dropWhile_sublist isSpaceJS)

/-- Rejection simulation for the pipeline scanner (claim C1): on heredoc-free
input (no `<` character), if the reference scanner reports an unescaped
substitution token starting from a state whose flags match the pipeline
scanner's, the pipeline loop rejects the input. -/
theorem refRejectPipelineAux :
    ∀ (n : Nat) (cs : List Char), cs.length ≤ n →
    ∀ (fuel : Nat) (buf : List Char) (segs : List (List Char)) (emptySeg : Bool)
      (hline : List Char) (s d e pd : Bool),
    '<' ∉ cs →
    (s = true → d = false) →
    (pd = true → s = false ∧ e = false ∧ cs.head? ≠ some '(') →
    refScan ⟨s, d, e, pd⟩ cs = true →
    ∃ msg, pipelineLoopF fuel ⟨buf, segs, s, d, e, emptySeg, [], false, hline⟩ cs
      = .error msg := by
  intro n
  induction n with
  | zero =>
    intro cs hlen fuel buf segs emptySeg hline s d e pd hlt hsd hpd href
    have hnil : cs = [] := List.eq_nil_of_length_eq_zero (Nat.le_zero.mp hlen)
    rw [hnil] at href
    exact absurd href (by simp [refScan])
  | succ n ih =>
    intro cs hlen fuel buf segs emptySeg hline s d e pd hlt hsd hpd href
    cases cs with
    | nil => exact absurd href (by simp [refScan])
    | cons c rest =>
    cases fuel with
    | zero => exact ⟨"out of fuel", rfl⟩
    | succ fuel =>
    simp only [refScan] at href
    have hrlen : rest.length ≤ n := by
      simp only [List.length_cons] at hlen
      omega
    have hrlt : '<' ∉ rest := fun h => hlt (List.mem_cons_of_mem _ h)
    have hclt : c ≠ '<' := fun h => hlt (by rw [h]; exact List.mem_cons_self _ _)
    cases e with
    | true =>
      have hpd0 : pd = false := by
        cases pd with
        | false => rfl
        | true => exact absurd (hpd rfl).2.1 (by simp)
      subst hpd0
      have hstep : pipeStep ⟨buf, segs, s, d, true, emptySeg, [], false, hline⟩ c rest
          = .ok (⟨buf ++ [c], segs, s, d, false, false, [], false, hline⟩, rest) := rfl
      have hhit : refHit ⟨s, d, true, false⟩ c = false := by simp [refHit]
      have hrs : refStep ⟨s, d, true, false⟩ c = ⟨s, d, false, false⟩ := rfl
      rw [hhit, Bool.false_or, hrs] at href
      obtain ⟨msg, hmsg⟩ := ih rest hrlen fuel (buf ++ [c]) segs false hline s d false false
        hrlt hsd (by simp) href
      exact ⟨msg, by rw [pipelineLoopF_step_ok fuel hstep]; exact hmsg⟩
    | false =>
    cases s with
    | true =>
      have hd0 : d = false := hsd rfl
      subst hd0
      have hpd0 : pd = false := by
        cases pd with
        | false => rfl
        | true => exact absurd (hpd rfl).1 (by simp)
      subst hpd0
      have hstep : pipeStep ⟨buf, segs, true, false, false, emptySeg, [], false, hline⟩ c rest
          = .ok (⟨buf ++ [c], segs, !(c == '\''), false, false, false, [], false, hline⟩,
            rest) := rfl
      have hhit : refHit ⟨true, false, false, false⟩ c = false := by simp [refHit]
      have hrs : refStep ⟨true, false, false, false⟩ c = ⟨!(c == '\''), false, false, false⟩ :=
        rfl
      rw [hhit, Bool.false_or, hrs] at href
      obtain ⟨msg, hmsg⟩ := ih rest hrlen fuel (buf ++ [c]) segs false hline (!(c == '\''))
        false false false hrlt (fun _ => rfl) (by simp) href
      exact ⟨msg, by rw [pipelineLoopF_step_ok fuel hstep]; exact hmsg⟩
    | false =>
    cases d with
    | true =>
      by_cases hbs : c = '\\'
      · subst hbs
        have hhit1 : refHit ⟨false, true, false, pd⟩ '\\' = false := by simp [refHit]
        have hrs1 : refStep ⟨false, true, false, pd⟩ '\\' = ⟨false, true, true, false⟩ := rfl
        rw [hhit1, Bool.false_or, hrs1] at href
        cases rest with
        | nil => exact absurd href (by simp [refScan])
        | cons nh rt =>
          simp only [refScan] at href
          have hhit2 : refHit ⟨false, true, true, false⟩ nh = false := by simp [refHit]
          have hrs2 : refStep ⟨false, true, true, false⟩ nh = ⟨false, true, false, false⟩ := rfl
          rw [hhit2, Bool.false_or, hrs2] at href
          have hrtlen : rt.length ≤ n := by
            simp only [List.length_cons] at hrlen
            omega
          have hrtlt : '<' ∉ rt := fun h => hrlt (List.mem_cons_of_mem _ h)
          by_cases hnh : DOUBLE_QUOTE_ESCAPES.contains nh = true
          · have hnhm : nh ∈ DOUBLE_QUOTE_ESCAPES := by simpa using hnh
            have hstep : pipeStep ⟨buf, segs, false, true, false, emptySeg, [], false, hline⟩
                '\\' (nh :: rt)
                = .ok (⟨buf ++ ['\\', nh], segs, false, true, false, false, [], false, hline⟩,
                  rt) := by
              simp [pipeStep, hnh, hnhm]
            obtain ⟨msg, hmsg⟩ := ih rt hrtlen fuel (buf ++ ['\\', nh]) segs false hline
              false true false false hrtlt (by simp) (by simp) href
            exact ⟨msg, by rw [pipelineLoopF_step_ok fuel hstep]; exact hmsg⟩
          · have hnhF : DOUBLE_QUOTE_ESCAPES.contains nh = false := by simpa using hnh
            have hnhs : nh ≠ '\\' ∧ nh ≠ '"' ∧ nh ≠ '$' ∧ nh ≠ '`' ∧ nh ≠ '\n' ∧ nh ≠ '\x0d' := by
              simpa [DOUBLE_QUOTE_ESCAPES] using hnhF
            have hnhm : nh ∉ DOUBLE_QUOTE_ESCAPES := by simpa using hnhF
            have hstep1 : pipeStep ⟨buf, segs, false, true, false, emptySeg, [], false, hline⟩
                '\\' (nh :: rt)
                = .ok (⟨buf ++ ['\\'], segs, false, true, false, false, [], false, hline⟩,
                  nh :: rt) := by
              simp [pipeStep, hnhF, hnhm]
            cases fuel with
            | zero =>
              exact ⟨"out of fuel", by rw [pipelineLoopF_step_ok 0 hstep1]; rfl⟩
            | succ fuel2 =>
              have hstep2 : pipeStep
                  ⟨buf ++ ['\\'], segs, false, true, false, false, [], false, hline⟩ nh rt
                  = .ok (⟨buf ++ ['\\'] ++ [nh], segs, false, true, false, false, [], false,
                    hline⟩, rt) := by
                simp [pipeStep, hnhs.1, hnhs.2.1, hnhs.2.2.1, hnhs.2.2.2.1, hnhs.2.2.2.2.1,
                  hnhs.2.2.2.2.2]
              obtain ⟨msg, hmsg⟩ := ih rt hrtlen fuel2 (buf ++ ['\\'] ++ [nh]) segs false hline
                false true false false hrtlt (by simp) (by simp) href
              exact ⟨msg, by
                rw [pipelineLoopF_step_ok (fuel2 + 1) hstep1,
                  pipelineLoopF_step_ok fuel2 hstep2]
                exact hmsg⟩
      · by_cases hds : c = '$' ∧ rest.head? = some '('
        · exact ⟨"unsupported shell token: $()", pipelineLoopF_step_err fuel
            (by simp [pipeStep, hbs, hds])⟩
        · by_cases hbt : c = '`'
          · exact ⟨"unsupported shell token: `", pipelineLoopF_step_err fuel
              (by simp [pipeStep, hbs, hds, hbt])⟩
          · by_cases hnl : c = '\n' ∨ c = '\x0d'
            · exact ⟨"unsupported shell token: newline", pipelineLoopF_step_err fuel
                (by simp [pipeStep, hbs, hds, hbt, hnl])⟩
            · have hstep : pipeStep ⟨buf, segs, false, true, false, emptySeg, [], false, hline⟩
                  c rest
                  = .ok (⟨buf ++ [c], segs, false, !(c == '"'), false, false, [], false,
                    hline⟩, rest) := by
                simp [pipeStep, hbs, hds, hbt, hnl]
              have hcp : pd = true → c ≠ '(' := by
                intro hp hc
                exact (hpd hp).2.2 (by simp [hc])
              have hhit : refHit ⟨false, true, false, pd⟩ c = false := by
                cases pd with
                | false => simp [refHit, hbt]
                | true => simp [refHit, hbt, hcp rfl]
              have hrs : refStep ⟨false, true, false, pd⟩ c
                  = ⟨false, !(c == '"'), false, c == '$'⟩ := by
                simp [refStep, hbs]
              rw [hhit, Bool.false_or, hrs] at href
              obtain ⟨msg, hmsg⟩ := ih rest hrlen fuel (buf ++ [c]) segs false hline
                false (!(c == '"')) false (c == '$') hrlt (by simp)
                (by
                  intro h
                  refine ⟨rfl, rfl, fun hh => hds ⟨by simpa using h, hh⟩⟩) href
              exact ⟨msg, by rw [pipelineLoopF_step_ok fuel hstep]; exact hmsg⟩
    | false =>
      by_cases hbs : c = '\\'
      · subst hbs
        have hstep : pipeStep ⟨buf, segs, false, false, false, emptySeg, [], false, hline⟩
            '\\' rest
            = .ok (⟨buf ++ ['\\'], segs, false, false, true, false, [], false, hline⟩,
              rest) := by
          simp [pipeStep]
        have hhit : refHit ⟨false, false, false, pd⟩ '\\' = false := by simp [refHit]
        have hrs : refStep ⟨false, false, false, pd⟩ '\\' = ⟨false, false, true, false⟩ := rfl
        rw [hhit, Bool.false_or, hrs] at href
        obtain ⟨msg, hmsg⟩ := ih rest hrlen fuel (buf ++ ['\\']) segs false hline
          false false true false hrlt (by simp) (by simp) href
        exact ⟨msg, by rw [pipelineLoopF_step_ok fuel hstep]; exact hmsg⟩
      · by_cases hsq : c = '\''
        · subst hsq
          have hstep : pipeStep ⟨buf, segs, false, false, false, emptySeg, [], false, hline⟩
              '\'' rest
              = .ok (⟨buf ++ ['\''], segs, true, false, false, false, [], false, hline⟩,
                rest) := by
            simp [pipeStep]
          have hhit : refHit ⟨false, false, false, pd⟩ '\'' = false := by simp [refHit]
          have hrs : refStep ⟨false, false, false, pd⟩ '\'' = ⟨true, false, false, false⟩ := rfl
          rw [hhit, Bool.false_or, hrs] at href
          obtain ⟨msg, hmsg⟩ := ih rest hrlen fuel (buf ++ ['\'']) segs false hline
            true false false false hrlt (fun _ => rfl) (by simp) href
          exact ⟨msg, by rw [pipelineLoopF_step_ok fuel hstep]; exact hmsg⟩
        · by_cases hdq : c = '"'
          · subst hdq
            have hstep : pipeStep ⟨buf, segs, false, false, false, emptySeg, [], false, hline⟩
                '"' rest
                = .ok (⟨buf ++ ['"'], segs, false, true, false, false, [], false, hline⟩,
                  rest) := by
              simp [pipeStep]
            have hhit : refHit ⟨false, false, false, pd⟩ '"' = false := by simp [refHit]
            have hrs : refStep ⟨false, false, false, pd⟩ '"' = ⟨false, true, false, false⟩ :=
              rfl
            rw [hhit, Bool.false_or, hrs] at href
            obtain ⟨msg, hmsg⟩ := ih rest hrlen fuel (buf ++ ['"']) segs false hline
              false true false false hrlt (by simp) (by simp) href
            exact ⟨msg, by rw [pipelineLoopF_step_ok fuel hstep]; exact hmsg⟩
          · by_cases hpp : c = '|' ∧ rest.head? = some '|'
            · exact ⟨"unsupported shell token: ||", pipelineLoopF_step_err fuel
                (by simp [pipeStep, hbs, hsq, hdq, hpp])⟩
            · by_cases hpa : c = '|' ∧ rest.head? = some '&'
              · exact ⟨"unsupported shell token: |&", pipelineLoopF_step_err fuel
                  (by simp [pipeStep, hbs, hsq, hdq, hpp, hpa])⟩
              · by_cases hp : c = '|'
                · subst hp
                  have hh1 : rest.head? ≠ some '|' := fun h => hpp ⟨rfl, h⟩
                  have hh2 : rest.head? ≠ some '&' := fun h => hpa ⟨rfl, h⟩
                  have hstep : pipeStep
                      ⟨buf, segs, false, false, false, emptySeg, [], false, hline⟩ '|' rest
                      = .ok (⟨[],
                          if trimChars buf = [] then segs else segs ++ [trimChars buf],
                          false, false, false, true, [], false, hline⟩, rest) := by
                    simp [pipeStep, hh1, hh2, pushPart]
                  have hhit : refHit ⟨false, false, false, pd⟩ '|' = false := by simp [refHit]
                  have hrs : refStep ⟨false, false, false, pd⟩ '|'
                      = ⟨false, false, false, false⟩ := rfl
                  rw [hhit, Bool.false_or, hrs] at href
                  obtain ⟨msg, hmsg⟩ := ih rest hrlen fuel []
                    (if trimChars buf = [] then segs else segs ++ [trimChars buf]) true hline
                    false false false false hrlt (by simp) (by simp) href
                  exact ⟨msg, by rw [pipelineLoopF_step_ok fuel hstep]; exact hmsg⟩
                · by_cases hac : c = '&' ∨ c = ';'
                  · exact ⟨"unsupported shell token: " ++ c.toString, pipelineLoopF_step_err
                      fuel (by simp [pipeStep, hbs, hsq, hdq, hpp, hpa, hp, hac])⟩
                  · by_cases hdis : c ∈ DISALLOWED_PIPELINE_TOKENS
                    · exact ⟨"unsupported shell token: " ++ c.toString, pipelineLoopF_step_err
                        fuel (by simp [pipeStep, hbs, hsq, hdq, hpp, hpa, hp, hac, hclt, hdis])⟩
                    · by_cases hds : c = '$' ∧ rest.head? = some '('
                      · obtain ⟨hc, hh⟩ := hds
                        subst hc
                        cases rest with
                        | nil => exact absurd hh (by simp)
                        | cons r1 rt =>
                          have hr1 : r1 = '(' := by simpa using hh
                          subst hr1
                          exact ⟨"unsupported shell token: $()",
                            pipelineLoopF_step_err fuel rfl⟩
                      · have hstep : pipeStep
                            ⟨buf, segs, false, false, false, emptySeg, [], false, hline⟩ c rest
                            = .ok (⟨buf ++ [c], segs, false, false, false, false, [], false,
                              hline⟩, rest) := by
                          simp [pipeStep, hbs, hsq, hdq, hpp, hpa, hp, hac, hclt, hdis, hds]
                        have hcp : c ≠ '(' := fun h => hdis (by rw [h]; decide)
                        have hbt : c ≠ '`' := fun h => hdis (by rw [h]; decide)
                        have hhit : refHit ⟨false, false, false, pd⟩ c = false := by
                          simp [refHit, hcp, hbt]
                        have hrs : refStep ⟨false, false, false, pd⟩ c
                            = ⟨false, false, false, c == '$'⟩ := by
                          simp [refStep, hbs, hsq, hdq]
                        rw [hhit, Bool.false_or, hrs] at href
                        obtain ⟨msg, hmsg⟩ := ih rest hrlen fuel (buf ++ [c]) segs false hline
                          false false false (c == '$') hrlt (by simp)
                          (by
                            intro h
                            refine ⟨rfl, rfl, fun hh => hds ⟨by simpa using h, hh⟩⟩) href
                        exact ⟨msg, by rw [pipelineLoopF_step_ok fuel hstep]; exact hmsg⟩

/-! ## Chain-scanner lemmas for claim C1 -/

theorem refStateRun_snoc (st : RefScanState) (xs : List Char) (c : Char) :
    refStateRun st (xs ++ [c]) = refStep (refStateRun st xs) c := by
  simp [refStateRun, List.foldl_append]

/-- Shift one scanned character from the remaining input into the buffer. -/
theorem hit_shift {st : RefScanState} {c : Char} {cs buf : List Char}
    (hst : refStateRun refState0 buf = st)
    (h : (refScan refState0 buf || refScan st (c :: cs)) = true) :
    (refScan refState0 (buf ++ [c]) || refScan (refStep st c) cs) = true := by
  rw [refScan_snoc, hst]
  simp only [refScan] at h
  rw [Bool.or_assoc]
  exact h

theorem chainLoopF_nil (fuel : Nat) (st : ChainState) :
    chainLoopF fuel st [] = chainFinish st := by
  cases fuel <;> rfl

theorem chainLoopF_step {st : ChainState} {c : Char} {rest : List Char} {st2 : ChainState}
    {rest2 : List Char} (fuel : Nat) (h : chainStep st c rest = (st2, rest2)) :
    chainLoopF (fuel + 1) st (c :: rest) = chainLoopF fuel st2 rest2 := by
  simp [chainLoopF, h]

theorem chainStep_parts_sub (st : ChainState) (c : Char) (rest : List Char) {p : ShellChainPart}
    (h : p ∈ st.parts) : p ∈ (chainStep st c rest).1.parts := by
  by_cases h1 : st.escaped = true
  · simp [chainStep, h1, h]
  · by_cases h2 : (¬ st.inSingle = true ∧ ¬ st.inDouble = true ∧ c = '\\')
    · simp [chainStep, h1, h2, h]
    · by_cases h3 : st.inSingle = true
      · simp [chainStep, h1, h2, h3, h]
      · by_cases h4 : st.inDouble = true
        · by_cases h5 : (c = '\\' ∧ (match rest.head? with
              | some n => decide (n ∈ DOUBLE_QUOTE_ESCAPES)
              | none => false) = true)
          · simp [chainStep, h1, h2, h3, h4, h5, h]
          · simp [chainStep, h1, h2, h3, h4, h5, h]
        · by_cases h6 : c = '\''
          · simp [chainStep, h1, h2, h3, h4, h6, h]
          · by_cases h7 : c = '"'
            · simp [chainStep, h1, h2, h3, h4, h6, h7, h]
            · by_cases ht : trimChars st.buf = []
              · by_cases h8 : c = '&' ∧ rest.head? = some '&'
                · simp [chainStep, chainPushOp, h1, h2, h3, h4, h6, h7, h8, ht, h]
                · by_cases h9 : c = '|' ∧ rest.head? = some '|'
                  · simp [chainStep, chainPushOp, h1, h2, h3, h4, h6, h7, h8, h9, ht, h]
                  · by_cases h10 : c = ';'
                    · simp [chainStep, chainPushOp, h1, h2, h3, h4, h6, h7, h8, h9, h10, ht, h]
                    · simp only [chainStep, h1, h2, h3, h4, h6, h7, h8, h9, h10,
                        if_false, if_neg]
                      by_cases hbb : c = '\\' <;> simp [hbb, h]
              · by_cases h8 : c = '&' ∧ rest.head? = some '&'
                · simp [chainStep, chainPushOp, h1, h2, h3, h4, h6, h7, h8, ht, h]
                · by_cases h9 : c = '|' ∧ rest.head? = some '|'
                  · simp [chainStep, chainPushOp, h1, h2, h3, h4, h6, h7, h8, h9, ht, h]
                  · by_cases h10 : c = ';'
                    · simp [chainStep, chainPushOp, h1, h2, h3, h4, h6, h7, h8, h9, h10, ht, h]
                    · simp only [chainStep, h1, h2, h3, h4, h6, h7, h8, h9, h10,
                        if_false, if_neg]
                      by_cases hbb : c = '\\' <;> simp [hbb, h]

theorem chainFinish_parts_mono {st : ChainState} {parts : List ShellChainPart}
    (h : chainFinish st = some parts) : ∀ p ∈ st.parts, p ∈ parts := by
  unfold chainFinish at h
  by_cases h1 : ¬ st.foundChain = true
  · simp only [h1, if_pos] at h
    exact absurd h (by simp)
  · rw [if_neg h1] at h
    by_cases ht : trimChars st.buf = []
    · rw [if_pos ht] at h
      exact absurd h (by simp)
    · rw [if_neg ht] at h
      by_cases hic : st.invalidChain = true ∨ st.parts ++ [⟨trimChars st.buf, none⟩] = []
      · rw [if_pos hic] at h
        exact absurd h (by simp)
      · rw [if_neg hic] at h
        intro p hp
        have := Option.some.inj h
        rw [← this]
        exact List.mem_append_left _ hp

theorem chainLoopF_parts_mono :
    ∀ (fuel : Nat) (st : ChainState) (cs : List Char) (parts : List ShellChainPart),
    chainLoopF fuel st cs = some parts → ∀ p ∈ st.parts, p ∈ parts := by
  intro fuel
  induction fuel with
  | zero =>
    intro st cs parts h p hp
    cases cs with
    | nil => exact chainFinish_parts_mono (by rw [← chainLoopF_nil 0 st]; exact h) p hp
    | cons c rest => exact absurd h (by simp [chainLoopF])
  | succ f ih =>
    intro st cs parts h p hp
    cases cs with
    | nil => exact chainFinish_parts_mono (by rw [← chainLoopF_nil (f + 1) st]; exact h) p hp
    | cons c rest =>
      have h2 : chainLoopF f (chainStep st c rest).1 (chainStep st c rest).2 = some parts := h
      exact ih _ _ _ h2 p (chainStep_parts_sub st c rest hp)

theorem refScan_of_trim_nil {buf : List Char} (h : trimChars buf = []) :
    refScan refState0 buf = false := by
  rw [← refScan_trim, h]
  rfl

/-- A successful `chainFinish` on a buffer holding a hit yields a final part
holding the hit. -/
theorem chainFinish_hit {buf : List Char} {prts parts : List ShellChainPart}
    {fc ic s d e : Bool}
    (hblt : '<' ∉ buf) (hbhit : refScan refState0 buf = true)
    (hres : chainFinish ⟨buf, prts, s, d, e, fc, ic⟩ = some parts) :
    ∃ p ∈ parts, refScan refState0 p.part = true ∧ '<' ∉ p.part := by
  unfold chainFinish at hres
  by_cases h1 : ¬ (⟨buf, prts, s, d, e, fc, ic⟩ : ChainState).foundChain = true
  · rw [if_pos h1] at hres
    exact absurd hres (by simp)
  · rw [if_neg h1] at hres
    by_cases ht : trimChars buf = []
    · rw [show trimChars (⟨buf, prts, s, d, e, fc, ic⟩ : ChainState).buf = [] from ht] at hres
      exact absurd hres (by simp)
    · rw [if_neg (show ¬ trimChars (⟨buf, prts, s, d, e, fc, ic⟩ : ChainState).buf = []
        from ht)] at hres
      by_cases hic : (⟨buf, prts, s, d, e, fc, ic⟩ : ChainState).invalidChain = true ∨
          (⟨buf, prts, s, d, e, fc, ic⟩ : ChainState).parts
            ++ [⟨trimChars (⟨buf, prts, s, d, e, fc, ic⟩ : ChainState).buf, none⟩] = []
      · rw [if_pos hic] at hres
        exact absurd hres (by simp)
      · rw [if_neg hic] at hres
        refine ⟨⟨trimChars buf, none⟩, ?_, ?_, ?_⟩
        · rw [← Option.some.inj hres]
          exact List.mem_append_right _ (by simp)
        · rw [show (⟨trimChars buf, none⟩ : ShellChainPart).part = trimChars buf from rfl,
            refScan_trim]
          exact hbhit
        · exact fun hm => hblt (trimChars_subset hm)

/-- Hit propagation through the chain scanner (claim C1): if the reference
scanner reports a hit in the buffered text or the remaining input, and the
chain scanner succeeds, then some produced chain part contains a hit. -/
theorem refHitChainAux :
    ∀ (n : Nat) (cs : List Char), cs.length ≤ n →
    ∀ (fuel : Nat) (buf : List Char) (prts : List ShellChainPart) (s d e pd fc ic : Bool)
      (parts : List ShellChainPart),
    '<' ∉ cs → '<' ∉ buf →
    refStateRun refState0 buf = ⟨s, d, e, pd⟩ →
    (s = true → d = false) →
    (refScan refState0 buf || refScan ⟨s, d, e, pd⟩ cs) = true →
    chainLoopF fuel ⟨buf, prts, s, d, e, fc, ic⟩ cs = some parts →
    ∃ p ∈ parts, refScan refState0 p.part = true ∧ '<' ∉ p.part := by
  intro n
  induction n with
  | zero =>
    intro cs hlen fuel buf prts s d e pd fc ic parts hlt hblt hst hsd hhit hres
    have hnil : cs = [] := List.eq_nil_of_length_eq_zero (Nat.le_zero.mp hlen)
    subst hnil
    rw [chainLoopF_nil] at hres
    have hb : refScan refState0 buf = true := by simpa [refScan] using hhit
    exact chainFinish_hit hblt hb hres
  | succ n ih =>
    intro cs hlen fuel buf prts s d e pd fc ic parts hlt hblt hst hsd hhit hres
    cases cs with
    | nil =>
      rw [chainLoopF_nil] at hres
      have hb : refScan refState0 buf = true := by simpa [refScan] using hhit
      exact chainFinish_hit hblt hb hres
    | cons c rest =>
    cases fuel with
    | zero => exact absurd hres (by simp [chainLoopF])
    | succ fuel =>
    have hrlen : rest.length ≤ n := by
      simp only [List.length_cons] at hlen
      omega
    have hrlt : '<' ∉ rest := fun h => hlt (List.mem_cons_of_mem _ h)
    have hclt : c ≠ '<' := fun h => hlt (by rw [h]; exact List.mem_cons_self _ _)
    have hblt2 : '<' ∉ buf ++ [c] := by
      intro h
      rcases List.mem_append.mp h with h | h
      · exact hblt h
      · simp at h
        exact hclt h.symm
    cases e with
    | true =>
      have hstep : chainStep ⟨buf, prts, s, d, true, fc, ic⟩ c rest
          = (⟨buf ++ [c], prts, s, d, false, fc, ic⟩, rest) := rfl
      have hrs : refStep ⟨s, d, true, pd⟩ c = ⟨s, d, false, false⟩ := rfl
      have hst2 : refStateRun refState0 (buf ++ [c]) = ⟨s, d, false, false⟩ := by
        rw [refStateRun_snoc, hst, hrs]
      have hhit2 := hit_shift hst hhit
      rw [hrs] at hhit2
      have hres2 : chainLoopF fuel ⟨buf ++ [c], prts, s, d, false, fc, ic⟩ rest
          = some parts := by
        rw [← chainLoopF_step fuel hstep]
        exact hres
      exact ih rest hrlen fuel (buf ++ [c]) prts s d false false fc ic parts hrlt hblt2
        hst2 hsd hhit2 hres2
    | false =>
    cases s with
    | true =>
      have hd0 : d = false := hsd rfl
      subst hd0
      have hstep : chainStep ⟨buf, prts, true, false, false, fc, ic⟩ c rest
          = (⟨buf ++ [c], prts, !(c == '\''), false, false, fc, ic⟩, rest) := rfl
      have hrs : refStep ⟨true, false, false, pd⟩ c = ⟨!(c == '\''), false, false, false⟩ := rfl
      have hst2 : refStateRun refState0 (buf ++ [c]) = ⟨!(c == '\''), false, false, false⟩ := by
        rw [refStateRun_snoc, hst, hrs]
      have hhit2 := hit_shift hst hhit
      rw [hrs] at hhit2
      have hres2 : chainLoopF fuel ⟨buf ++ [c], prts, !(c == '\''), false, false, fc, ic⟩ rest
          = some parts := by
        rw [← chainLoopF_step fuel hstep]
        exact hres
      exact ih rest hrlen fuel (buf ++ [c]) prts (!(c == '\'')) false false false fc ic parts
        hrlt hblt2 hst2 (fun _ => rfl) hhit2 hres2
    | false =>
    cases d with
    | true =>
      by_cases hbs : c = '\\'
      · subst hbs
        cases rest with
        | nil =>
          have hstep : chainStep ⟨buf, prts, false, true, false, fc, ic⟩ '\\' []
              = (⟨buf ++ ['\\'], prts, false, true, false, fc, ic⟩, []) := rfl
          have hres2 : chainFinish ⟨buf ++ ['\\'], prts, false, true, false, fc, ic⟩
              = some parts := by
            rw [← chainLoopF_nil fuel, ← chainLoopF_step fuel hstep]
            exact hres
          have hh1 : refHit ⟨false, true, false, pd⟩ '\\' = false := by simp [refHit]
          have hb : refScan refState0 buf = true := by
            simpa [refScan, hh1] using hhit
          have hb2 : refScan refState0 (buf ++ ['\\']) = true := by
            rw [refScan_snoc, hst, hb]
            rfl
          exact chainFinish_hit hblt2 hb2 hres2
        | cons nh rt =>
          have hrs1 : refStep ⟨false, true, false, pd⟩ '\\' = ⟨false, true, true, false⟩ := rfl
          have hrs2 : refStep ⟨false, true, true, false⟩ nh = ⟨false, true, false, false⟩ := rfl
          have hst1 : refStateRun refState0 (buf ++ ['\\']) = ⟨false, true, true, false⟩ := by
            rw [refStateRun_snoc, hst, hrs1]
          have hst2 : refStateRun refState0 (buf ++ ['\\'] ++ [nh])
              = ⟨false, true, false, false⟩ := by
            rw [refStateRun_snoc, hst1, hrs2]
          have hhit1 := hit_shift hst hhit
          rw [hrs1] at hhit1
          have hhit2 := hit_shift hst1 hhit1
          rw [hrs2] at hhit2
          have hrtlen : rt.length ≤ n := by
            simp only [List.length_cons] at hlen
            omega
          have hrtlt : '<' ∉ rt := fun h => hrlt (List.mem_cons_of_mem _ h)
          have hnlt : nh ≠ '<' := fun h => hrlt (by rw [h]; exact List.mem_cons_self _ _)
          have hblt3 : '<' ∉ buf ++ ['\\'] ++ [nh] := by
            intro h
            rcases List.mem_append.mp h with h | h
            · exact hblt2 h
            · simp at h
              exact hnlt h.symm
          by_cases hnh : DOUBLE_QUOTE_ESCAPES.contains nh = true
          · have hnhm : nh ∈ DOUBLE_QUOTE_ESCAPES := by simpa using hnh
            have hstep : chainStep ⟨buf, prts, false, true, false, fc, ic⟩ '\\' (nh :: rt)
                = (⟨buf ++ ['\\'] ++ [nh], prts, false, true, false, fc, ic⟩, rt) := by
              simp [chainStep, hnh, hnhm]
            have hres2 : chainLoopF fuel
                ⟨buf ++ ['\\'] ++ [nh], prts, false, true, false, fc, ic⟩ rt = some parts := by
              rw [← chainLoopF_step fuel hstep]
              exact hres
            exact ih rt hrtlen fuel (buf ++ ['\\'] ++ [nh]) prts false true false false fc ic
              parts hrtlt hblt3 hst2 (by simp) hhit2 hres2
          · have hnhF : DOUBLE_QUOTE_ESCAPES.contains nh = false := by simpa using hnh
            have hnhm : nh ∉ DOUBLE_QUOTE_ESCAPES := by simpa using hnhF
            have hnhs : nh ≠ '\\' ∧ nh ≠ '"' ∧ nh ≠ '$' ∧ nh ≠ '`' ∧ nh ≠ '\n'
                ∧ nh ≠ '\x0d' := by
              simpa [DOUBLE_QUOTE_ESCAPES] using hnhF
            have hstep1 : chainStep ⟨buf, prts, false, true, false, fc, ic⟩ '\\' (nh :: rt)
                = (⟨buf ++ ['\\'], prts, false, true, false, fc, ic⟩, nh :: rt) := by
              simp [chainStep, hnhF, hnhm]
            cases fuel with
            | zero =>
              rw [chainLoopF_step 0 hstep1] at hres
              exact absurd hres (by simp [chainLoopF])
            | succ fuel2 =>
              have hstep2 : chainStep ⟨buf ++ ['\\'], prts, false, true, false, fc, ic⟩ nh rt
                  = (⟨buf ++ ['\\'] ++ [nh], prts, false, true, false, fc, ic⟩, rt) := by
                simp [chainStep, hnhs.1, hnhs.2.1]
              have hres2 : chainLoopF fuel2
                  ⟨buf ++ ['\\'] ++ [nh], prts, false, true, false, fc, ic⟩ rt
                  = some parts := by
                rw [← chainLoopF_step fuel2 hstep2, ← chainLoopF_step (fuel2 + 1) hstep1]
                exact hres
              exact ih rt hrtlen fuel2 (buf ++ ['\\'] ++ [nh]) prts false true false false fc
                ic parts hrtlt hblt3 hst2 (by simp) hhit2 hres2
      · have hstep : chainStep ⟨buf, prts, false, true, false, fc, ic⟩ c rest
            = (⟨buf ++ [c], prts, false, !(c == '"'), false, fc, ic⟩, rest) := by
          simp [chainStep, hbs]
        have hrs : refStep ⟨false, true, false, pd⟩ c
            = ⟨false, !(c == '"'), false, c == '$'⟩ := by
          simp [refStep, hbs]
        have hst2 : refStateRun refState0 (buf ++ [c])
            = ⟨false, !(c == '"'), false, c == '$'⟩ := by
          rw [refStateRun_snoc, hst, hrs]
        have hhit2 := hit_shift hst hhit
        rw [hrs] at hhit2
        have hres2 : chainLoopF fuel ⟨buf ++ [c], prts, false, !(c == '"'), false, fc, ic⟩
            rest = some parts := by
          rw [← chainLoopF_step fuel hstep]
          exact hres
        exact ih rest hrlen fuel (buf ++ [c]) prts false (!(c == '"')) false (c == '$') fc ic
          parts hrlt hblt2 hst2 (by simp) hhit2 hres2
    | false =>
      by_cases hbs : c = '\\'
      · subst hbs
        have hstep : chainStep ⟨buf, prts, false, false, false, fc, ic⟩ '\\' rest
            = (⟨buf ++ ['\\'], prts, false, false, true, fc, ic⟩, rest) := by
          simp [chainStep]
        have hrs : refStep ⟨false, false, false, pd⟩ '\\' = ⟨false, false, true, false⟩ := rfl
        have hst2 : refStateRun refState0 (buf ++ ['\\']) = ⟨false, false, true, false⟩ := by
          rw [refStateRun_snoc, hst, hrs]
        have hhit2 := hit_shift hst hhit
        rw [hrs] at hhit2
        have hres2 : chainLoopF fuel ⟨buf ++ ['\\'], prts, false, false, true, fc, ic⟩ rest
            = some parts := by
          rw [← chainLoopF_step fuel hstep]
          exact hres
        exact ih rest hrlen fuel (buf ++ ['\\']) prts false false true false fc ic parts
          hrlt hblt2 hst2 (by simp) hhit2 hres2
      · by_cases hsq : c = '\''
        · subst hsq
          have hstep : chainStep ⟨buf, prts, false, false, false, fc, ic⟩ '\'' rest
              = (⟨buf ++ ['\''], prts, true, false, false, fc, ic⟩, rest) := by
            simp [chainStep]
          have hrs : refStep ⟨false, false, false, pd⟩ '\'' = ⟨true, false, false, false⟩ := rfl
          have hst2 : refStateRun refState0 (buf ++ ['\'']) = ⟨true, false, false, false⟩ := by
            rw [refStateRun_snoc, hst, hrs]
          have hhit2 := hit_shift hst hhit
          rw [hrs] at hhit2
          have hres2 : chainLoopF fuel ⟨buf ++ ['\''], prts, true, false, false, fc, ic⟩ rest
              = some parts := by
            rw [← chainLoopF_step fuel hstep]
            exact hres
          exact ih rest hrlen fuel (buf ++ ['\'']) prts true false false false fc ic parts
            hrlt hblt2 hst2 (fun _ => rfl) hhit2 hres2
        · by_cases hdq : c = '"'
          · subst hdq
            have hstep : chainStep ⟨buf, prts, false, false, false, fc, ic⟩ '"' rest
                = (⟨buf ++ ['"'], prts, false, true, false, fc, ic⟩, rest) := by
              simp [chainStep]
            have hrs : refStep ⟨false, false, false, pd⟩ '"' = ⟨false, true, false, false⟩ :=
              rfl
            have hst2 : refStateRun refState0 (buf ++ ['"'])
                = ⟨false, true, false, false⟩ := by
              rw [refStateRun_snoc, hst, hrs]
            have hhit2 := hit_shift hst hhit
            rw [hrs] at hhit2
            have hres2 : chainLoopF fuel ⟨buf ++ ['"'], prts, false, true, false, fc, ic⟩
                rest = some parts := by
              rw [← chainLoopF_step fuel hstep]
              exact hres
            exact ih rest hrlen fuel (buf ++ ['"']) prts false true false false fc ic parts
              hrlt hblt2 hst2 (by simp) hhit2 hres2
          · by_cases haa : c = '&' ∧ rest.head? = some '&'
            · obtain ⟨hc, hh⟩ := haa
              subst hc
              cases rest with
              | nil => exact absurd hh (by simp)
              | cons r1 rt =>
                have hr1e : r1 = '&' := by simpa using hh
                subst hr1e
                have hstep : chainStep ⟨buf, prts, false, false, false, fc, ic⟩ '&' ('&' :: rt)
                    = (chainPushOp ⟨buf, prts, false, false, false, fc, ic⟩ .andOp, rt) := rfl
                simp only [refScan] at hhit
                have hh1 : refHit ⟨false, false, false, pd⟩ '&' = false := by simp [refHit]
                have hr1 : refStep ⟨false, false, false, pd⟩ '&'
                    = ⟨false, false, false, false⟩ := rfl
                rw [hh1, hr1] at hhit
                have hh2 : refHit ⟨false, false, false, false⟩ '&' = false := by simp [refHit]
                have hr2 : refStep ⟨false, false, false, false⟩ '&'
                    = ⟨false, false, false, false⟩ := rfl
                rw [hh2, hr2, Bool.false_or, Bool.false_or] at hhit
                have hrtlen : rt.length ≤ n := by
                  simp only [List.length_cons] at hlen
                  omega
                have hrtlt : '<' ∉ rt := fun h => hrlt (List.mem_cons_of_mem _ h)
                by_cases hbh : refScan refState0 buf = true
                · have ht : ¬ trimChars buf = [] := fun h => by
                    simp [refScan_of_trim_nil h] at hbh
                  have hpush : chainPushOp ⟨buf, prts, false, false, false, fc, ic⟩ .andOp
                      = ⟨[], prts ++ [⟨trimChars buf, some .andOp⟩], false, false, false,
                        true, ic⟩ := by
                    simp [chainPushOp, ht]
                  have hres2 : chainLoopF fuel ⟨[], prts ++ [⟨trimChars buf, some .andOp⟩],
                      false, false, false, true, ic⟩ rt = some parts := by
                    rw [← hpush, ← chainLoopF_step fuel hstep]
                    exact hres
                  refine ⟨⟨trimChars buf, some .andOp⟩, ?_, ?_, ?_⟩
                  · exact chainLoopF_parts_mono fuel _ rt parts hres2 _ (by simp)
                  · rw [show (⟨trimChars buf, some ShellChainOperator.andOp⟩
                        : ShellChainPart).part = trimChars buf from rfl, refScan_trim]
                    exact hbh
                  · exact fun hm => hblt (trimChars_subset hm)
                · have hbF : refScan refState0 buf = false := by simpa using hbh
                  rw [hbF, Bool.false_or] at hhit
                  have hhit2 : (refScan refState0 []
                      || refScan ⟨false, false, false, false⟩ rt) = true := by
                    simpa [refScan] using hhit
                  by_cases ht : trimChars buf = []
                  · have hpush : chainPushOp ⟨buf, prts, false, false, false, fc, ic⟩ .andOp
                        = ⟨[], prts, false, false, false, true, true⟩ := by
                      simp [chainPushOp, ht]
                    have hres2 : chainLoopF fuel ⟨[], prts, false, false, false, true, true⟩
                        rt = some parts := by
                      rw [← hpush, ← chainLoopF_step fuel hstep]
                      exact hres
                    exact ih rt hrtlen fuel [] prts false false false false true true parts
                      hrtlt (by simp) rfl (by simp) hhit2 hres2
                  · have hpush : chainPushOp ⟨buf, prts, false, false, false, fc, ic⟩ .andOp
                        = ⟨[], prts ++ [⟨trimChars buf, some .andOp⟩], false, false, false,
                          true, ic⟩ := by
                      simp [chainPushOp, ht]
                    have hres2 : chainLoopF fuel ⟨[], prts ++ [⟨trimChars buf, some .andOp⟩],
                        false, false, false, true, ic⟩ rt = some parts := by
                      rw [← hpush, ← chainLoopF_step fuel hstep]
                      exact hres
                    exact ih rt hrtlen fuel [] (prts ++ [⟨trimChars buf, some .andOp⟩])
                      false false false false true ic parts hrtlt (by simp) rfl (by simp)
                      hhit2 hres2
            · by_cases hoo : c = '|' ∧ rest.head? = some '|'
              · obtain ⟨hc, hh⟩ := hoo
                subst hc
                cases rest with
                | nil => exact absurd hh (by simp)
                | cons r1 rt =>
                  have hr1e : r1 = '|' := by simpa using hh
                  subst hr1e
                  have hstep : chainStep ⟨buf, prts, false, false, false, fc, ic⟩ '|'
                      ('|' :: rt)
                      = (chainPushOp ⟨buf, prts, false, false, false, fc, ic⟩ .orOp, rt) :=
                    rfl
                  simp only [refScan] at hhit
                  have hh1 : refHit ⟨false, false, false, pd⟩ '|' = false := by simp [refHit]
                  have hr1 : refStep ⟨false, false, false, pd⟩ '|'
                      = ⟨false, false, false, false⟩ := rfl
                  rw [hh1, hr1] at hhit
                  have hh2 : refHit ⟨false, false, false, false⟩ '|' = false := by
                    simp [refHit]
                  have hr2 : refStep ⟨false, false, false, false⟩ '|'
                      = ⟨false, false, false, false⟩ := rfl
                  rw [hh2, hr2, Bool.false_or, Bool.false_or] at hhit
                  have hrtlen : rt.length ≤ n := by
                    simp only [List.length_cons] at hlen
                    omega
                  have hrtlt : '<' ∉ rt := fun h => hrlt (List.mem_cons_of_mem _ h)
                  by_cases hbh : refScan refState0 buf = true
                  · have ht : ¬ trimChars buf = [] := fun h => by
                      simp [refScan_of_trim_nil h] at hbh
                    have hpush : chainPushOp ⟨buf, prts, false, false, false, fc, ic⟩ .orOp
                        = ⟨[], prts ++ [⟨trimChars buf, some .orOp⟩], false, false, false,
                          true, ic⟩ := by
                      simp [chainPushOp, ht]
                    have hres2 : chainLoopF fuel ⟨[], prts ++ [⟨trimChars buf, some .orOp⟩],
                        false, false, false, true, ic⟩ rt = some parts := by
                      rw [← hpush, ← chainLoopF_step fuel hstep]
                      exact hres
                    refine ⟨⟨trimChars buf, some .orOp⟩, ?_, ?_, ?_⟩
                    · exact chainLoopF_parts_mono fuel _ rt parts hres2 _ (by simp)
                    · rw [show (⟨trimChars buf, some ShellChainOperator.orOp⟩
                          : ShellChainPart).part = trimChars buf from rfl, refScan_trim]
                      exact hbh
                    · exact fun hm => hblt (trimChars_subset hm)
                  · have hbF : refScan refState0 buf = false := by simpa using hbh
                    rw [hbF, Bool.false_or] at hhit
                    have hhit2 : (refScan refState0 []
                        || refScan ⟨false, false, false, false⟩ rt) = true := by
                      simpa [refScan] using hhit
                    by_cases ht : trimChars buf = []
                    · have hpush : chainPushOp ⟨buf, prts, false, false, false, fc, ic⟩ .orOp
                          = ⟨[], prts, false, false, false, true, true⟩ := by
                        simp [chainPushOp, ht]
                      have hres2 : chainLoopF fuel
                          ⟨[], prts, false, false, false, true, true⟩ rt = some parts := by
                        rw [← hpush, ← chainLoopF_step fuel hstep]
                        exact hres
                      exact ih rt hrtlen fuel [] prts false false false false true true parts
                        hrtlt (by simp) rfl (by simp) hhit2 hres2
                    · have hpush : chainPushOp ⟨buf, prts, false, false, false, fc, ic⟩ .orOp
                          = ⟨[], prts ++ [⟨trimChars buf, some .orOp⟩], false, false, false,
                            true, ic⟩ := by
                        simp [chainPushOp, ht]
                      have hres2 : chainLoopF fuel ⟨[],
                          prts ++ [⟨trimChars buf, some .orOp⟩],
                          false, false, false, true, ic⟩ rt = some parts := by
                        rw [← hpush, ← chainLoopF_step fuel hstep]
                        exact hres
                      exact ih rt hrtlen fuel [] (prts ++ [⟨trimChars buf, some .orOp⟩])
                        false false false false true ic parts hrtlt (by simp) rfl (by simp)
                        hhit2 hres2
              · by_cases hsemi : c = ';'
                · subst hsemi
                  have hstep : chainStep ⟨buf, prts, false, false, false, fc, ic⟩ ';' rest
                      = (chainPushOp ⟨buf, prts, false, false, false, fc, ic⟩ .semi, rest) :=
                    rfl
                  simp only [refScan] at hhit
                  have hh1 : refHit ⟨false, false, false, pd⟩ ';' = false := by simp [refHit]
                  have hr1 : refStep ⟨false, false, false, pd⟩ ';'
                      = ⟨false, false, false, false⟩ := rfl
                  rw [hh1, hr1, Bool.false_or] at hhit
                  by_cases hbh : refScan refState0 buf = true
                  · have ht : ¬ trimChars buf = [] := fun h => by
                      simp [refScan_of_trim_nil h] at hbh
                    have hpush : chainPushOp ⟨buf, prts, false, false, false, fc, ic⟩ .semi
                        = ⟨[], prts ++ [⟨trimChars buf, some .semi⟩], false, false, false,
                          true, ic⟩ := by
                      simp [chainPushOp, ht]
                    have hres2 : chainLoopF fuel ⟨[], prts ++ [⟨trimChars buf, some .semi⟩],
                        false, false, false, true, ic⟩ rest = some parts := by
                      rw [← hpush, ← chainLoopF_step fuel hstep]
                      exact hres
                    refine ⟨⟨trimChars buf, some .semi⟩, ?_, ?_, ?_⟩
                    · exact chainLoopF_parts_mono fuel _ rest parts hres2 _ (by simp)
                    · rw [show (⟨trimChars buf, some ShellChainOperator.semi⟩
                          : ShellChainPart).part = trimChars buf from rfl, refScan_trim]
                      exact hbh
                    · exact fun hm => hblt (trimChars_subset hm)
                  · have hbF : refScan refState0 buf = false := by simpa using hbh
                    rw [hbF, Bool.false_or] at hhit
                    have hhit2 : (refScan refState0 []
                        || refScan ⟨false, false, false, false⟩ rest) = true := by
                      simpa [refScan] using hhit
                    by_cases ht : trimChars buf = []
                    · have hpush : chainPushOp ⟨buf, prts, false, false, false, fc, ic⟩ .semi
                          = ⟨[], prts, false, false, false, true, true⟩ := by
                        simp [chainPushOp, ht]
                      have hres2 : chainLoopF fuel
                          ⟨[], prts, false, false, false, true, true⟩ rest = some parts := by
                        rw [← hpush, ← chainLoopF_step fuel hstep]
                        exact hres
                      exact ih rest hrlen fuel [] prts false false false false true true
                        parts hrlt (by simp) rfl (by simp) hhit2 hres2
                    · have hpush : chainPushOp ⟨buf, prts, false, false, false, fc, ic⟩ .semi
                          = ⟨[], prts ++ [⟨trimChars buf, some .semi⟩], false, false, false,
                            true, ic⟩ := by
                        simp [chainPushOp, ht]
                      have hres2 : chainLoopF fuel ⟨[],
                          prts ++ [⟨trimChars buf, some .semi⟩],
                          false, false, false, true, ic⟩ rest = some parts := by
                        rw [← hpush, ← chainLoopF_step fuel hstep]
                        exact hres
                      exact ih rest hrlen fuel [] (prts ++ [⟨trimChars buf, some .semi⟩])
                        false false false false true ic parts hrlt (by simp) rfl (by simp)
                        hhit2 hres2
                · have hstep : chainStep ⟨buf, prts, false, false, false, fc, ic⟩ c rest
                      = (⟨buf ++ [c], prts, false, false, false, fc, ic⟩, rest) := by
                    simp [chainStep, hbs, hsq, hdq, haa, hoo, hsemi]
                  have hrs : refStep ⟨false, false, false, pd⟩ c
                      = ⟨false, false, false, c == '$'⟩ := by
                    simp [refStep, hbs, hsq, hdq]
                  have hst2 : refStateRun refState0 (buf ++ [c])
                      = ⟨false, false, false, c == '$'⟩ := by
                    rw [refStateRun_snoc, hst, hrs]
                  have hhit2 := hit_shift hst hhit
                  rw [hrs] at hhit2
                  have hres2 : chainLoopF fuel
                      ⟨buf ++ [c], prts, false, false, false, fc, ic⟩ rest = some parts := by
                    rw [← chainLoopF_step fuel hstep]
                    exact hres
                  exact ih rest hrlen fuel (buf ++ [c]) prts false false false (c == '$') fc
                    ic parts hrlt hblt2 hst2 (by simp) hhit2 hres2

/-- A pipeline part containing an unescaped substitution token (and no
heredoc operator) fails `splitShellPipeline`. -/
theorem splitShellPipeline_hit_fails {p : List Char} (hlt : '<' ∉ p)
    (hhit : refScan refState0 p = true) : (splitShellPipeline p).ok = false := by
  obtain ⟨msg, hmsg⟩ := refRejectPipelineAux p.length p (le_refl _) (p.length + 1) [] []
    false [] false false false false hlt (by simp) (by simp) hhit
  have hmsg2 : pipelineRun initPipeState p = .error msg := hmsg
  unfold splitShellPipeline
  rw [hmsg2]

/-- `analyzeChainParts` succeeds only if every chain part pipeline-splits. -/
theorem analyzeChainParts_ok_pipeline {fsResolve : String → Option String} :
    ∀ (L : List (List Char)) (x : List ExecCommandSegment × List (List ExecCommandSegment)),
    analyzeChainParts fsResolve L = .ok x → ∀ p ∈ L, (splitShellPipeline p).ok = true := by
  intro L
  induction L with
  | nil =>
    intro x h p hp
    simp at hp
  | cons a L ih =>
    intro x h p hp
    unfold analyzeChainParts at h
    by_cases hok : (splitShellPipeline a).ok = false
    · rw [if_pos hok] at h
      exact absurd h (by simp)
    · rw [if_neg hok] at h
      rcases List.mem_cons.mp hp with hpa | hp2
      · rw [hpa]
        simpa using hok
      · cases hps : parseSegmentsFromParts fsResolve (splitShellPipeline a).segments with
        | none =>
          rw [hps] at h
          exact absurd h (by simp)
        | some segs =>
          rw [hps] at h
          cases hrec : analyzeChainParts fsResolve L with
          | error r =>
            rw [hrec] at h
            exact absurd h (by simp)
          | ok y => exact ih y hrec p hp2

/-- C1 counterexample: a quoted-delimiter heredoc whose body holds a backtick
command substitution.  The reference predicate reports an unescaped backtick
outside single quotes, yet the analysis accepts the command, because heredoc
body lines under a quoted delimiter are taken literally. -/
theorem refScanHeredoc_cx :
    hasUnescapedSubstitutionToken "/usr/bin/cat << 'X'\n`id`\nX" = true ∧
    (analyzeShellCommand noResolve none "/usr/bin/cat << 'X'\n`id`\nX").ok = true := by
  refine ⟨by decide, by decide⟩

/-- C1 (amended): for every command without the heredoc operator character `<`,
an unescaped `$(` or backtick outside single quotes forces `ok = false`; and on
the spec's inert examples (substitution text inside single quotes or
backslash-escaped) the analysis succeeds with every pipeline segment kept. -/
theorem unescapedSubstitution_rejected :
    (∀ (fsResolve : String → Option String) (command : String),
      '<' ∉ command.data →
      hasUnescapedSubstitutionToken command = true →
      (analyzeShellCommand fsResolve none command).ok = false) ∧
    ((analyzeShellCommand noResolve none "echo 'output: $(whoami)'").ok = true ∧
      (analyzeShellCommand noResolve none "echo 'output: $(whoami)'").segments.map
        (fun s => s.raw) = ["echo 'output: $(whoami)'"]) ∧
    ((analyzeShellCommand noResolve none "echo \"output: \\$(whoami)\"").ok = true ∧
      (analyzeShellCommand noResolve none "echo \"output: \\$(whoami)\"").segments.map
        (fun s => s.raw) = ["echo \"output: \\$(whoami)\""]) ∧
    ((analyzeShellCommand noResolve none "echo 'a $(b)' | grep x && printf '%s' ok").ok
        = true ∧
      (analyzeShellCommand noResolve none
          "echo 'a $(b)' | grep x && printf '%s' ok").segments.map (fun s => s.raw)
        = ["echo 'a $(b)'", "grep x", "printf '%s' ok"]) := by
  refine ⟨?_, ⟨by decide, by decide⟩, ⟨by decide, by decide⟩, ⟨by decide, by decide⟩⟩
  intro fsResolve command hlt htok
  unfold analyzeShellCommand
  rw [if_neg (by decide)]
  cases hchain : splitCommandChainWithOperators command with
  | none =>
    have hfail : (splitShellPipeline command.data).ok = false :=
      splitShellPipeline_hit_fails hlt htok
    show (if (splitShellPipeline command.data).ok = false then
        (⟨false, (splitShellPipeline command.data).reason, [], none⟩ : ExecCommandAnalysis)
      else
        match parseSegmentsFromParts fsResolve (splitShellPipeline command.data).segments with
        | none => ⟨false, some "unable to parse shell segment", [], none⟩
        | some segs => ⟨true, none, segs, none⟩).ok = false
    rw [if_pos hfail]
  | some parts =>
    have hres : chainLoopF (command.data.length + 1)
        ⟨[], [], false, false, false, false, false⟩ command.data = some parts := hchain
    have hhit0 : (refScan refState0 []
        || refScan ⟨false, false, false, false⟩ command.data) = true := by
      have h2 : refScan refState0 command.data = true := htok
      simpa [refScan] using h2
    obtain ⟨p, hpmem, hphit, hplt⟩ := refHitChainAux command.data.length command.data
      (le_refl _) (command.data.length + 1) [] [] false false false false false false parts
      hlt (by simp) rfl (by simp) hhit0 hres
    show (match analyzeChainParts fsResolve
        (parts.map (fun q : ShellChainPart => q.part)) with
      | .error r => (⟨false, r, [], none⟩ : ExecCommandAnalysis)
      | .ok (allSegs, chains) => ⟨true, none, allSegs, some chains⟩).ok = false
    cases hac : analyzeChainParts fsResolve
        (parts.map (fun q : ShellChainPart => q.part)) with
    | error r => rfl
    | ok x =>
      have hpok := analyzeChainParts_ok_pipeline
        (parts.map (fun q : ShellChainPart => q.part)) x hac p.part
        (List.mem_map_of_mem _ hpmem)
      rw [splitShellPipeline_hit_fails hplt hphit] at hpok
      exact absurd hpok (by simp)

/-- Witness for C1 at the command `echo` followed by a backtick substitution. -/
theorem unescapedSubstitution_rejected_witness :
    (analyzeShellCommand noResolve none "echo `id`").ok = false :=
  unescapedSubstitution_rejected.1 noResolve "echo `id`" (by decide) (by decide)
